import Mathlib

/-!
Shallow embedding of the `AnimScript` component of the ckb repository
(source file `src/unnamed/part_000`, the implementation of `animscript.cpp`):
the script catalog (`scan` / `load` / `list`) and the per-instance protocol
state machine (`parameters`, `start`, `retrigger`, `frame`, `nextFrame`,
`readProcess`).

Modelling conventions:
* `QString` values are Lean `String`s; the lines handed to the parsers are the
  trimmed lines the C++ code produces with `QString::trimmed` / `readLine`.
* `quint64` timestamps are `Nat` (with explicit wrap-around `% 2 ^ 64` where
  the code can underflow), `double` arithmetic is `ℚ` (every computation the
  claims exercise is exact in binary floating point, and the comparison /
  subtraction structure of the loops is identical), and `QVariant` is the
  inductive `QV`.
* Everything `AnimScript` writes to the child process's stdin is collected in
  a `List Cmd` result next to the updated state; the key-map handshake block
  written by `AnimScript::start` is abstracted to a single `Cmd.keymapBlock`
  token because the `KeyMap` / `KeyPos` classes are external to this
  repository.
-/

namespace Ckb

/-- Test for an ASCII hex digit, used by the percent decoder (a model of
`QUrl::fromPercentEncoding`) and by the UUID parser (a model of
`QUuid(QString)`). -/
def isHexDigit (c : Char) : Bool :=
  if (48 ≤ c.toNat ∧ c.toNat ≤ 57) ∨ (97 ≤ c.toNat ∧ c.toNat ≤ 102) ∨
      (65 ≤ c.toNat ∧ c.toNat ≤ 70) then true else false

/-- Numeric value of an ASCII hex digit (0 for other characters). -/
def hexDigitVal (c : Char) : ℕ :=
  if 48 ≤ c.toNat ∧ c.toNat ≤ 57 then c.toNat - 48
  else if 97 ≤ c.toNat ∧ c.toNat ≤ 102 then c.toNat - 87
  else if 65 ≤ c.toNat ∧ c.toNat ≤ 70 then c.toNat - 55
  else 0

/-- Value of a big-endian list of hex digits. -/
def hexListVal (l : List Char) : ℕ :=
  l.foldl (fun acc c => 16 * acc + hexDigitVal c) 0

/-- ASCII lower-casing of a string, character by character: model of
`QString::toLower` (the scripts' metadata is ASCII; Unicode case folding is
out of scope). -/
def toLowerStr (s : String) : String :=
  ⟨s.data.map Char.toLower⟩

/-- ASCII upper-casing of a string, character by character: model of
`QString::toUpper`. -/
def toUpperStr (s : String) : String :=
  ⟨s.data.map Char.toUpper⟩

/-- Model of `QChar::isSpace` on ASCII: blank or one of the control
characters `\t`, `\n`, `\v`, `\f`, `\r`. -/
def isSpaceChar (c : Char) : Bool :=
  if c = ' ' ∨ (9 ≤ c.toNat ∧ c.toNat ≤ 13) then true else false

/-- Model of `QString::trimmed`: strip leading and trailing whitespace. -/
def trimStr (s : String) : String :=
  ⟨((s.data.dropWhile isSpaceChar).reverse.dropWhile isSpaceChar).reverse⟩

/-- Character-list worker for `splitSpace`, accumulating the current field. -/
def splitSpaceAux : List Char → List Char → List String
  | [], acc => [⟨acc.reverse⟩]
  | ' ' :: rest, acc => (⟨acc.reverse⟩ : String) :: splitSpaceAux rest []
  | c :: rest, acc => splitSpaceAux rest (c :: acc)

/-- Model of `QString::split(" ")` (Qt keeps empty parts by default). -/
def splitSpace (s : String) : List String :=
  splitSpaceAux s.data []

/-- Lexicographic comparison of character lists by code point, the order
behind `QString::operator<` (and hence behind `QMap<QString, ...>` key
order). -/
def ltChars : List Char → List Char → Bool
  | [], [] => false
  | [], _ :: _ => true
  | _ :: _, [] => false
  | a :: as, b :: bs =>
    if a.toNat < b.toNat then true
    else if b.toNat < a.toNat then false
    else ltChars as bs

/-- Model of `QString::operator<`. -/
def ltStr (a b : String) : Bool :=
  ltChars a.data b.data

/-- Character-list worker for `percentDecode`: a `%` followed by two hex
digits decodes to the corresponding byte, anything else is copied. -/
def percentDecodeAux : List Char → List Char
  | [] => []
  | '%' :: a :: b :: rest =>
    if isHexDigit a ∧ isHexDigit b then
      Char.ofNat (16 * hexDigitVal a + hexDigitVal b) :: percentDecodeAux rest
    else '%' :: percentDecodeAux (a :: b :: rest)
  | c :: rest => c :: percentDecodeAux rest

/-- Model of `QUrl::fromPercentEncoding`. -/
def percentDecode (s : String) : String :=
  ⟨percentDecodeAux s.data⟩

/-- `urlParam` from `animscript.cpp`: trim, percent-decode, trim again. -/
def urlParam (s : String) : String :=
  trimStr (percentDecode (trimStr s))

/-- Decimal value of a list of ASCII digits. -/
def digitsVal (l : List Char) : ℕ :=
  l.foldl (fun acc c => 10 * acc + (c.toNat - 48)) 0

/-- Model of `QString::toDouble` / `QVariant::toDouble` on a string, restricted
to plain decimal notation `[+-]digits[.digits]` (the forms the info grammar
uses; exponent notation is not modelled). Any string that fails to parse
yields `0`, as `toDouble` does. -/
def parseDouble (s : String) : ℚ :=
  let cs := s.data
  let sgn : ℚ × List Char :=
    match cs with
    | '-' :: r => (-1, r)
    | '+' :: r => (1, r)
    | _ => (1, cs)
  let intPart := sgn.2.takeWhile Char.isDigit
  let rest := sgn.2.dropWhile Char.isDigit
  match rest with
  | [] => if intPart = [] then 0 else sgn.1 * digitsVal intPart
  | '.' :: frac =>
    if frac.all Char.isDigit ∧ (intPart ≠ [] ∨ frac ≠ []) then
      sgn.1 * ((digitsVal intPart : ℚ) + (digitsVal frac : ℚ) / (10 : ℚ) ^ frac.length)
    else 0
  | _ => 0

/-- Model of C `round` (`std::round`): round half away from zero. -/
def cround (q : ℚ) : ℤ :=
  if q < 0 then -(⌊-q + 1/2⌋) else ⌊q + 1/2⌋

/-- Model of `QUuid(QString)`: accepts `xxxxxxxx-xxxx-xxxx-xxxx-xxxxxxxxxxxx`
with or without surrounding braces, and yields the 128-bit value as a `Nat`;
any other string yields the null UUID, represented as `0` (so `guid = 0`
models `QUuid::isNull`). -/
def parseUuid (s : String) : ℕ :=
  let cs := s.data
  let cs := if cs.head? = some '\x7b' ∧ cs.getLast? = some '\x7d' then
    (cs.drop 1).dropLast else cs
  let ok := cs.length = 36 ∧ (List.range 36).all fun i =>
    if i = 8 ∨ i = 13 ∨ i = 18 ∨ i = 23 then cs.getD i ' ' = '-'
    else isHexDigit (cs.getD i ' ')
  if ok then hexListVal (cs.filter (· ≠ '-')) else 0

/-- Big-endian fixed-width hex rendering (lowercase), for `QUuid::toString`. -/
def hexDigits : ℕ → ℕ → List Char
  | 0, _ => []
  | w + 1, n => hexDigits w (n / 16) ++
      [Char.ofNat (if n % 16 < 10 then 48 + n % 16 else 87 + n % 16)]

/-- Model of `QUuid::toString`: braced, hyphenated, lowercase hex. -/
def uuidToString (g : ℕ) : String :=
  let d := hexDigits 32 g
  "\x7b" ++ ⟨d.take 8⟩ ++ "-" ++ ⟨(d.drop 8).take 4⟩ ++ "-" ++
    ⟨(d.drop 12).take 4⟩ ++ "-" ++ ⟨(d.drop 16).take 4⟩ ++ "-" ++
    ⟨d.drop 20⟩ ++ "\x7d"

/-- `guid().toString().toUpper()`, the suffix text used by `AnimScript::list`
for duplicate display names. -/
def uuidUpper (g : ℕ) : String :=
  toUpperStr (uuidToString g)

/-- Model of `QVariant` restricted to the variants `animscript.cpp` stores:
strings (everything the info parser reads), doubles, ints/longs and bools
(the injected parameter defaults and bounds). -/
inductive QV
  | str (s : String)
  | dbl (q : ℚ)
  | int (i : ℤ)
  | boolean (b : Bool)
deriving DecidableEq

/-- Model of `QVariant::toDouble` on the stored variants. -/
def QV.toDouble : QV → ℚ
  | .str s => parseDouble s
  | .dbl q => q
  | .int i => (i : ℚ)
  | .boolean b => if b then 1 else 0

/-- A parameter-value mapping (`QMap<QString, QVariant>` as the GUI hands it
to `init`/`parameters`), as an association list. -/
abbrev PV := List (String × QV)

/-- `QMap::value(key)`: first binding of the key, defaulting to a null
`QVariant`, whose `toDouble` is `0` - modelled by the empty string. -/
def pvValue (pv : PV) (k : String) : QV :=
  (((pv.find? (fun e => e.1 = k)).map (·.2)).getD (QV.str ""))

/-- The commands an `AnimScript` writes to the child process's stdin. The
key-map block of `AnimScript::start` is abstracted to `keymapBlock` (the
`KeyMap` / `KeyPos` data it serialises is external to the repository);
`paramsBlock pv` stands for the `begin params` ... `end params` block printed
by `printParams` from the value mapping `pv`. -/
inductive Cmd
  | keymapBlock
  | paramsBlock (pv : PV)
  | beginRun
  | frame (q : ℚ)
  | start
  | key (s : String)
deriving DecidableEq

/-- The mutable state of one `AnimScript` instance: the lifecycle flags, the
computed timing values, the animation clock, the child-output parser state and
the accumulated colors. `hasProcess` models `process != 0`. -/
structure AS where
  initialized : Bool := false
  stopped : Bool := false
  firstFrame : Bool := false
  readFrame : Bool := false
  readAnyFrame : Bool := false
  hasProcess : Bool := false
  absoluteTime : Bool := false
  preempt : Bool := false
  liveParams : Bool := false
  paramValues : PV := []
  durationMsec : ℤ := 0
  repeatMsec : ℤ := 0
  lastFrame : ℕ := 0
  inputBuffer : List String := []
  colors : List (String × ℕ) := []
deriving DecidableEq

/-- `AnimScript::setDuration`: absolute time fixes `durationMsec = 1000`,
`repeatMsec = 0`; otherwise both are computed from the parameter values, with
a non-positive duration normalised to the sentinel `-1`. -/
def setDurationA (absoluteTime : Bool) (pv : PV) : ℤ × ℤ :=
  if absoluteTime then (1000, 0)
  else
    let d := cround ((pvValue pv "duration").toDouble * 1000)
    let d := if d ≤ 0 then -1 else d
    (d, cround ((pvValue pv "repeat").toDouble * 1000))

/-- `AnimScript::parameters`: a no-op unless the instance is initialized, a
child process exists, **and** the descriptor declares live parameters;
otherwise replaces the value mapping, recomputes the durations and prints the
updated parameter block to the child. -/
def parametersA (st : AS) (pv : PV) : AS × List Cmd :=
  if ¬ st.initialized ∨ ¬ st.hasProcess ∨ ¬ st.liveParams then (st, [])
  else
    let dr := setDurationA st.absoluteTime pv
    ({ st with paramValues := pv, durationMsec := dr.1, repeatMsec := dr.2 },
     [Cmd.paramsBlock pv])

/-- `AnimScript::start`: stop any previous child (clearing the colors), reset
the run flags, spawn the child, write the key-map block, the parameter block
and `begin run`, and set the animation clock to `timestamp`. -/
def startA (st : AS) (ts : ℕ) : AS × List Cmd :=
  if ¬ st.initialized then (st, [])
  else
    ({ st with
        colors := []
        stopped := false
        firstFrame := false
        readFrame := false
        readAnyFrame := false
        hasProcess := true
        lastFrame := ts },
     [Cmd.keymapBlock, Cmd.paramsBlock st.paramValues, Cmd.beginRun])

/-- Fuel-indexed worker for the `while(delta > 1.)` loop of
`AnimScript::nextFrame`: each pass emits one synthetic `frame 1` and
decrements `delta`. The fuel `⌈delta⌉.toNat` used by `skipFrames` is always
sufficient: after `k` passes the residual value is `delta - k`, and once the fuel is
exhausted (`k = ⌈delta⌉`) the loop guard `1 < delta - k` is false anyway. -/
def skipGo : ℕ → ℚ → ℕ × ℚ
  | 0, delta => (0, delta)
  | n + 1, delta =>
    if 1 < delta then
      let r := skipGo n (delta - 1)
      (r.1 + 1, r.2)
    else (0, delta)

/-- The `while(delta > 1.)` loop of `AnimScript::nextFrame`: returns the
number of synthetic `frame 1` commands emitted and the residual delta. -/
def skipFrames (delta : ℚ) : ℕ × ℚ :=
  skipGo ⌈delta⌉.toNat delta

/-- `AnimScript::nextFrame`: reset the clock if the timestamp does not move
forward, compute `delta` in durations, skip whole durations in relative mode,
clamp a negative residue to zero, advance the clock and emit the `frame`
command. -/
def nextFrameA (st : AS) (ts : ℕ) : AS × List Cmd :=
  let lf := if ts ≤ st.lastFrame then ts else st.lastFrame
  let delta : ℚ := ((ts - lf : ℕ) : ℚ) / (st.durationMsec : ℚ)
  let sk := if st.absoluteTime then ((0 : ℕ), delta) else skipFrames delta
  let d2 := if sk.2 < 0 then 0 else sk.2
  ({ st with lastFrame := ts, firstFrame := true },
   List.replicate sk.1 (Cmd.frame 1) ++ [Cmd.frame d2])

/-- `AnimScript::frame`: no-op if uninitialized or stopped; lazily start the
child; advance the animation only if the previous frame was consumed or no
frame was advanced yet; clear the consumed flag. -/
def frameA (st : AS) (ts : ℕ) : AS × List Cmd :=
  if ¬ st.initialized ∨ st.stopped then (st, [])
  else
    let s1 := if ¬ st.hasProcess then startA st ts else (st, [])
    let s2 := if s1.1.readFrame ∨ ¬ s1.1.firstFrame then nextFrameA s1.1 ts
      else (s1.1, [])
    ({ s2.1 with readFrame := false }, s1.2 ++ s2.2)

/-- Wrap-around subtraction on `quint64` values (`timestamp - repeatMsec`). -/
def sub64 (a b : ℕ) : ℕ :=
  (a + 2 ^ 64 - b % 2 ^ 64) % 2 ^ 64

/-- `AnimScript::retrigger` as invoked with `allowPreempt` false (the value
the synthetic inner call passes): lazily start the child, advance the clock,
send `start`. -/
def retriggerNoPre (st : AS) (ts : ℕ) : AS × List Cmd :=
  if ¬ st.initialized then (st, [])
  else
    let s1 := if ¬ st.hasProcess then startA st ts else (st, [])
    let s2 := nextFrameA s1.1 ts
    (s2.1, s1.2 ++ s2.2 ++ [Cmd.start])

/-- `AnimScript::retrigger(timestamp, allowPreempt)`. When preemption is
wanted, the code first triggers the animation one repeat period in the past.
Modelled from the spec: the inner call `retrigger(timestamp - repeatMsec)`
uses the default value of the `allowPreempt` parameter declared in
`animscript.h`, which is not under `src/`; the spec states the synthetic call
runs "with preemption disabled", bounding the recursion to one extra level,
so the inner call is `retriggerNoPre`. -/
def retriggerA (st : AS) (ts : ℕ) (allowPreempt : Bool) : AS × List Cmd :=
  if ¬ st.initialized then (st, [])
  else
    let s0 := if allowPreempt ∧ st.preempt ∧ 0 < st.repeatMsec then
        retriggerNoPre st (sub64 ts st.repeatMsec.toNat)
      else (st, [])
    let s1 := if ¬ s0.1.hasProcess then startA s0.1 ts else (s0.1, [])
    let s2 := nextFrameA s1.1 ts
    (s2.1, s0.2 ++ s1.2 ++ s2.2 ++ [Cmd.start])

/-- The `end frame` handler of `AnimScript::readProcess`: each buffered line
is parsed as `argb <key> <hex>`; lines with a different token count or leading
keyword are discarded; accepted entries overwrite the color map entry.
`QString::toUInt(0, 16)` is modelled as `hexListVal` on an all-hex-digit
string of value below `2 ^ 32`, and `0` otherwise (`toUInt` returns 0 on
failure). -/
def processFrameLine (colors : List (String × ℕ)) (input : String) :
    List (String × ℕ) :=
  match splitSpace input with
  | [a, k, v] =>
    if a = "argb" then
      let value := if v.data ≠ [] ∧ v.data.all isHexDigit ∧
          hexListVal v.data < 2 ^ 32 then hexListVal v.data else 0
      if colors.any (fun e => e.1 = k) then
        colors.map (fun e => if e.1 = k then (k, value) else e)
      else colors ++ [(k, value)]
    else colors
  | _ => colors

/-- The line loop of `AnimScript::readProcess` over the available (trimmed)
lines: outside a frame block everything but `begin frame` is ignored except
the sentinel `end run`, which sets `stopped` and returns (abandoning the
remaining lines); `end frame` processes and clears the buffer and sets the
consumed flags; every other line (including `begin frame` itself) is
buffered. -/
def readLinesA (st : AS) : List String → AS
  | [] => st
  | line :: rest =>
    if st.inputBuffer = [] ∧ line ≠ "begin frame" then
      if line = "end run" then { st with stopped := true }
      else readLinesA st rest
    else if line = "end frame" then
      readLinesA { st with
        colors := st.inputBuffer.foldl processFrameLine st.colors
        inputBuffer := []
        readFrame := true
        readAnyFrame := true } rest
    else readLinesA { st with inputBuffer := st.inputBuffer ++ [line] } rest

/-! ### The script catalog: `AnimScript::load`, `scan` and `list` -/

/-- `Param::Type` from `animscript.h`. -/
inductive PType
  | long
  | double
  | bool
  | rgb
  | argb
  | gradient
  | agradient
  | angle
  | string
  | label
  | invalid
deriving DecidableEq

/-- The chain mapping the lowercased `param <type>` token to `Param::Type`
in `AnimScript::load` (unknown tokens stay `invalid` and the line is
skipped). -/
def parseType (sType : String) : PType :=
  if sType = "long" then .long
  else if sType = "double" then .double
  else if sType = "bool" then .bool
  else if sType = "rgb" then .rgb
  else if sType = "argb" then .argb
  else if sType = "gradient" then .gradient
  else if sType = "agradient" then .agradient
  else if sType = "angle" then .angle
  else if sType = "string" then .string
  else if sType = "label" then .label
  else .invalid

/-- The `Param` record: `{ type, name, prefix, postfix, def, minimum,
maximum }` (`prefix`/`postfix` are Lean keywords, hence the `Str` suffix). -/
structure Param where
  type : PType
  name : String
  prefixStr : String
  postfixStr : String
  defaultVal : QV
  minimum : QV
  maximum : QV
deriving DecidableEq

/-- `KeyPress` mode of a descriptor (`KP_NONE` / `KP_NAME` / `KP_POSITION`). -/
inductive KPMode
  | none
  | name
  | position
deriving DecidableEq

/-- The descriptor data `AnimScript::load` fills in (`AnimScript::AnimInfo`).
The field defaults are the values the fields hold when the info-output loop
starts (`guid` null, strings empty, `kpMode = KP_NONE`,
`absoluteTime = preempt = liveParams = false`, `repeat = true`, no params);
`repeat` is a Lean keyword, hence `repeatFlag`. -/
structure AnimInfo where
  guid : ℕ := 0
  name : String := ""
  version : String := ""
  year : String := ""
  author : String := ""
  license : String := ""
  description : String := ""
  kpMode : KPMode := .none
  absoluteTime : Bool := false
  repeatFlag : Bool := true
  preempt : Bool := false
  liveParams : Bool := false
  params : List Param := []
deriving DecidableEq

/-- Modelled from the spec: `AnimScript::hasParam` is declared in
`animscript.h`, which is not under `src/`; per the spec it is "a
case-insensitive membership test over the ordered list" of parameters. -/
def hasParamF (params : List Param) (n : String) : Bool :=
  params.any fun p => toLowerStr p.name = toLowerStr n

/-- State threaded through the info-output loop of `AnimScript::load`: the
descriptor under construction plus the local `defaultDuration` (initially
`-1`). -/
structure ParseState where
  info : AnimInfo := {}
  defaultDuration : ℚ := -1
deriving DecidableEq

/-- One iteration of the info-output loop of `AnimScript::load`, applied to
the line already split on single spaces (`line.split(" ")`). -/
def processComponents (st : ParseState) (components : List String) :
    ParseState :=
  if components.length < 2 then st
  else
    let param := trimStr (components.headD "")
    let c1 := components.getD 1 ""
    if param = "guid" then
      { st with info := { st.info with guid := parseUuid (urlParam c1) } }
    else if param = "name" then
      { st with info := { st.info with name := urlParam c1 } }
    else if param = "version" then
      { st with info := { st.info with version := urlParam c1 } }
    else if param = "year" then
      { st with info := { st.info with year := urlParam c1 } }
    else if param = "author" then
      { st with info := { st.info with author := urlParam c1 } }
    else if param = "license" then
      { st with info := { st.info with license := urlParam c1 } }
    else if param = "description" then
      { st with info := { st.info with description := urlParam c1 } }
    else if param = "kpmode" then
      { st with info := { st.info with kpMode :=
          if c1 = "position" then KPMode.position
          else if c1 = "name" then KPMode.name
          else KPMode.none } }
    else if param = "time" then
      if 0 < st.defaultDuration then st
      else { st with info := { st.info with absoluteTime := c1 = "absolute" } }
    else if param = "repeat" then
      { st with info := { st.info with repeatFlag := c1 = "on" } }
    else if param = "preempt" then
      { st with info := { st.info with preempt := c1 = "on" } }
    else if param = "parammode" then
      { st with info := { st.info with liveParams := c1 = "live" } }
    else if param = "param" then
      if components.length < 3 then st
      else
        let comps := components ++ List.replicate (8 - components.length) ""
        let type := parseType (toLowerStr (comps.getD 1 ""))
        if type = PType.invalid then st
        else
          let name := toLowerStr (comps.getD 2 "")
          if hasParamF st.info.params name then st
          else
            let prefixV := urlParam (comps.getD 3 "")
            let postfixV := urlParam (comps.getD 4 "")
            let defV : QV := QV.str (urlParam (comps.getD 5 ""))
            let minV : QV := QV.str (urlParam (comps.getD 6 ""))
            let maxV : QV := QV.str (urlParam (comps.getD 7 ""))
            if (name = "trigger" ∨ name = "kptrigger") ∧ type ≠ PType.bool then
              st
            else if name = "duration" then
              let value := defV.toDouble
              if st.info.absoluteTime ∨ type ≠ PType.double ∨
                  value < 1/10 ∨ 86400 < value then st
              else
                { st with
                    info := { st.info with params := st.info.params ++
                      [⟨type, name, prefixV, postfixV, defV,
                        QV.dbl (1/10), QV.dbl 86400⟩] }
                    defaultDuration := value }
            else if name = "delay" ∨ name = "kpdelay" ∨ name = "repeat" ∨
                name = "kprepeat" ∨ name = "stop" ∨ name = "kpstop" ∨
                name = "kprelease" then st
            else
              { st with info := { st.info with params := st.info.params ++
                  [⟨type, name, prefixV, postfixV, defV, minV, maxV⟩] } }
    else st

/-- One (trimmed) line of `--ckb-info` output. -/
def processLine (st : ParseState) (line : String) : ParseState :=
  processComponents st (splitSpace (trimStr line))

/-- The whole info-output loop over the child's lines. -/
def parseLines (lines : List String) : ParseState :=
  lines.foldl processLine {}

/-- `ONE_DAY` from `animscript.cpp` (seconds). -/
def oneDay : ℚ := 86400

def triggerParam : Param :=
  ⟨.bool, "trigger", "", "", QV.boolean true, QV.int 0, QV.int 0⟩

def kptriggerParam : Param :=
  ⟨.bool, "kptrigger", "", "", QV.boolean false, QV.int 0, QV.int 0⟩

def delayParam : Param :=
  ⟨.double, "delay", "", "", QV.dbl 0, QV.dbl 0, QV.dbl oneDay⟩

def kpdelayParam : Param :=
  ⟨.double, "kpdelay", "", "", QV.dbl 0, QV.dbl 0, QV.dbl oneDay⟩

/-- The C++ literal `03` bounding `kprelease` is octal, i.e. `3`. -/
def kpreleaseParam : Param :=
  ⟨.bool, "kprelease", "", "", QV.boolean false, QV.int 0, QV.int 3⟩

def durationParam (dd : ℚ) : Param :=
  ⟨.double, "duration", "", "", QV.dbl dd, QV.dbl (1/10), QV.dbl oneDay⟩

def repeatParam (dd : ℚ) : Param :=
  ⟨.double, "repeat", "", "", QV.dbl dd, QV.dbl (1/10), QV.dbl oneDay⟩

def kprepeatParam (dd : ℚ) : Param :=
  ⟨.double, "kprepeat", "", "", QV.dbl dd, QV.dbl (1/10), QV.dbl oneDay⟩

def stopLongParam : Param :=
  ⟨.long, "stop", "", "", QV.int (-1), QV.int 0, QV.int 1000⟩

def kpstopLongParam : Param :=
  ⟨.long, "kpstop", "", "", QV.int 0, QV.int 0, QV.int 1000⟩

def stopDblParam : Param :=
  ⟨.double, "stop", "", "", QV.dbl (-1), QV.dbl (1/10), QV.dbl oneDay⟩

def kpstopDblParam : Param :=
  ⟨.double, "kpstop", "", "", QV.dbl (-1), QV.dbl (1/10), QV.dbl oneDay⟩

/-- The tail of `AnimScript::load` after the info-output loop: the
required-field check, then the injection of the reserved timing parameters. -/
def finalize (st : ParseState) : Option AnimInfo :=
  let info := st.info
  if info.guid = 0 ∨ info.name = "" ∨ info.version = "" ∨ info.year = "" ∨
      info.author = "" ∨ info.license = "" then none
  else
    let info := if hasParamF info.params "trigger" then info
      else { info with params := info.params ++ [triggerParam] }
    let info := if hasParamF info.params "kptrigger" then info
      else { info with params := info.params ++ [kptriggerParam] }
    let info := if info.absoluteTime ∨ ¬ info.repeatFlag then
        { info with preempt := false }
      else info
    let info := { info with params := info.params ++
        [delayParam, kpdelayParam, kpreleaseParam] }
    let dd := st.defaultDuration
    let dd' := if dd < 0 then 1 else dd
    let info := if dd < 0 ∧ ¬ info.absoluteTime then
        { info with params := info.params ++ [durationParam dd'] }
      else info
    let info := if info.repeatFlag then
        { info with params := info.params ++
            [repeatParam dd', kprepeatParam dd', stopLongParam,
              kpstopLongParam] }
      else
        { info with params := info.params ++ [stopDblParam, kpstopDblParam] }
    some info

/-- `AnimScript::load` on the lines the `--ckb-info` child printed: `none`
models `return false` (the candidate is rejected). -/
def loadLines (lines : List String) : Option AnimInfo :=
  finalize (parseLines lines)

/-- One candidate executable as seen by a scan: either its `--ckb-info` run
hit the 1-second `waitForFinished` timeout (and was killed), or it produced
this list of output lines. -/
structure Candidate where
  timedOut : Bool
  lines : List String
deriving DecidableEq

/-- `AnimScript::load` for one candidate: a timed-out process is rejected
before any parsing. -/
def loadCandidate (c : Candidate) : Option AnimInfo :=
  if c.timedOut then none else loadLines c.lines

/-- The loop of `AnimScript::scan`: accept each candidate whose `load`
succeeds and whose guid is not already registered. -/
def scanList : List Candidate → List AnimInfo → List AnimInfo
  | [], acc => acc
  | c :: cs, acc =>
    match loadCandidate c with
    | some info =>
      if acc.any (fun s => s.guid = info.guid) then scanList cs acc
      else scanList cs (acc ++ [info])
    | none => scanList cs acc

/-- The guids of the candidates whose `load` succeeds, in scan order. -/
def validGuids (cands : List Candidate) : List ℕ :=
  cands.filterMap fun c => (loadCandidate c).map (·.guid)

/-- First-occurrence deduplication with an explicit seen-set, mirroring the
guid check of the scan loop. -/
def firstSeen : List ℕ → List ℕ → List ℕ
  | [], _ => []
  | g :: gs, seen =>
    if g ∈ seen then firstSeen gs seen
    else g :: firstSeen gs (seen ++ [g])

/-- Lookup in the `QMap<QString, const AnimScript*>` of `AnimScript::list`. -/
def mapLookup (m : List (String × AnimInfo)) (k : String) : Option AnimInfo :=
  match m with
  | [] => none
  | (k', v) :: rest => if k = k' then some v else mapLookup rest k

/-- In-place mutation of the value stored under a key (the rename of `last`
through its pointer in `AnimScript::list`). -/
def mapAdjust (m : List (String × AnimInfo)) (k : String)
    (f : AnimInfo → AnimInfo) : List (String × AnimInfo) :=
  m.map fun e => if e.1 = k then (e.1, f e.2) else e

/-- `QMap::operator[] =`: sorted insertion by key (`QString::operator<`),
replacing the value if the key is present. -/
def mapInsert (m : List (String × AnimInfo)) (k : String) (v : AnimInfo) :
    List (String × AnimInfo) :=
  match m with
  | [] => [(k, v)]
  | (k', v') :: rest =>
    if ltStr k k' then (k, v) :: (k', v') :: rest
    else if k = k' then (k, v) :: rest
    else (k', v') :: mapInsert rest k v

/-- The duplicate-name suffix applied by `AnimScript::list`:
`name += " " + guid().toString().toUpper()`. -/
def renameDup (s : AnimInfo) : AnimInfo :=
  { s with name := s.name ++ " " ++ uuidUpper s.guid }

/-- The loop of `AnimScript::list` over the registered scripts (in the
iteration order of the registry): on a display-name collision both the stored
script and the current one get the guid suffix appended, and the current
script is then inserted under its (possibly renamed) name; the stored one
keeps its old key. -/
def listFold : List AnimInfo → List (String × AnimInfo) →
    List (String × AnimInfo)
  | [], result => result
  | s :: rest, result =>
    match mapLookup result s.name with
    | some _ =>
      let result' := mapAdjust result s.name renameDup
      let s' := renameDup s
      listFold rest (mapInsert result' s'.name s')
    | none => listFold rest (mapInsert result s.name s)

/-- `AnimScript::list`: the values of the accumulated map, in key order. -/
def listValues (scripts : List AnimInfo) : List AnimInfo :=
  (listFold scripts []).map (·.2)

/-- Non-descending order of a string list under `QString::operator<`
("alphabetically ordered"). -/
def chainLe : List String → Bool
  | [] => true
  | [_] => true
  | a :: b :: rest => !(ltStr b a) && chainLe (b :: rest)

/-! ### Helper lemmas -/

theorem skipGo_fuel (n m : ℕ) (d : ℚ) (hn : ⌈d⌉.toNat ≤ n) (hm : ⌈d⌉.toNat ≤ m) :
    skipGo n d = skipGo m d := by
  induction n generalizing m d with
  | zero =>
    have h0 : ¬ 1 < d := by
      intro h
      have : (1 : ℤ) < ⌈d⌉ := by
        have := Int.le_ceil d
        exact_mod_cast lt_of_lt_of_le h this
      omega
    cases m with
    | zero => rfl
    | succ m => simp [skipGo, h0]
  | succ n ih =>
    cases m with
    | zero =>
      have h0 : ¬ 1 < d := by
        intro h
        have : (1 : ℤ) < ⌈d⌉ := by
          have := Int.le_ceil d
          exact_mod_cast lt_of_lt_of_le h this
        omega
      simp [skipGo, h0]
    | succ m =>
      simp only [skipGo]
      by_cases h : 1 < d
      · have hd : ⌈d - 1⌉.toNat ≤ n ∧ ⌈d - 1⌉.toNat ≤ m := by
          rw [Int.ceil_sub_one]
          constructor <;> omega
        rw [ih m (d - 1) hd.1 hd.2]
      · simp [h]

/-- The loop semantics of `skipFrames`: one unfolding of
`while (delta > 1.) { emit; delta -= 1; }`. -/
theorem skipFrames_eq (d : ℚ) :
    skipFrames d = if 1 < d then
      ((skipFrames (d - 1)).1 + 1, (skipFrames (d - 1)).2)
    else (0, d) := by
  by_cases h : 1 < d
  · have h2 : (2 : ℤ) ≤ ⌈d⌉ := by
      have := Int.le_ceil d
      have : (1 : ℚ) < ⌈d⌉ := lt_of_lt_of_le h this
      exact_mod_cast this
    have hts : ⌈d⌉.toNat = ⌈d - 1⌉.toNat + 1 := by
      rw [Int.ceil_sub_one]; omega
    simp only [skipFrames, hts, skipGo, h, if_true]
  · have hle : ⌈d⌉.toNat ≤ ⌈d⌉.toNat := le_refl _
    simp only [skipFrames]
    cases hn : ⌈d⌉.toNat with
    | zero => simp [skipGo, h]
    | succ n => simp [skipGo, h]

theorem skipFrames_zero : skipFrames 0 = (0, 0) := by
  rw [skipFrames_eq]; norm_num

/-! ### C1: the `nextFrame` clock algorithm -/

/-- C1. `nextFrame(timestamp)`: (i) if `timestamp ≤ lastFrame` the clock is
reset and a single `frame 0` is emitted; (ii) the clock always ends at
`timestamp`; (iii) in relative mode a timestamp exactly 2.5 durations after
`lastFrame` emits exactly two `frame 1` commands followed by `frame 0.5`. -/
theorem nextFrame_clock_c1 :
    (∀ (st : AS) (ts : ℕ), ts ≤ st.lastFrame →
      nextFrameA st ts =
        ({ st with lastFrame := ts, firstFrame := true }, [Cmd.frame 0]))
    ∧ (∀ (st : AS) (ts : ℕ), (nextFrameA st ts).1.lastFrame = ts)
    ∧ (∀ (st : AS) (ts : ℕ), st.absoluteTime = false →
        0 < st.durationMsec →
        ((ts - st.lastFrame : ℕ) : ℚ) = 5/2 * (st.durationMsec : ℚ) →
        (nextFrameA st ts).2 =
          [Cmd.frame 1, Cmd.frame 1, Cmd.frame (1/2)]) := by
  refine ⟨fun st ts h => ?_, fun st ts => rfl, fun st ts habs hdur hts => ?_⟩
  · simp only [nextFrameA, if_pos h, Nat.sub_self, Nat.cast_zero, zero_div]
    rw [skipFrames_zero]
    cases st.absoluteTime <;> norm_num
  · have hd0 : ((st.durationMsec : ℚ)) ≠ 0 := by
      exact_mod_cast (ne_of_gt (by exact_mod_cast hdur : (0:ℚ) < st.durationMsec))
    have hpos : 0 < ((ts - st.lastFrame : ℕ) : ℚ) := by
      rw [hts]
      positivity
    have hne : ts - st.lastFrame ≠ 0 := by
      intro h
      rw [h] at hpos
      norm_num at hpos
    have hle : ¬ ts ≤ st.lastFrame := by
      intro h
      exact hne (Nat.sub_eq_zero_of_le h)
    have hdelta : ((ts - st.lastFrame : ℕ) : ℚ) / (st.durationMsec : ℚ) = 5/2 := by
      rw [hts, mul_div_assoc, div_self hd0, mul_one]
    have hskip : skipFrames (5/2 : ℚ) = (2, 1/2) := by
      with_unfolding_all decide
    simp only [nextFrameA, if_neg hle, habs, Bool.false_eq_true, if_false,
      hdelta, hskip]
    norm_num [List.replicate]

/-- Concrete instantiation of `nextFrame_clock_c1`. -/
theorem nextFrame_clock_c1_witness :
    nextFrameA { lastFrame := 500, durationMsec := 1000 } 500 =
      ({ lastFrame := 500, durationMsec := 1000, firstFrame := true }, [Cmd.frame 0])
    ∧ (nextFrameA { lastFrame := 0, durationMsec := 1000 } 2500).2 =
      [Cmd.frame 1, Cmd.frame 1, Cmd.frame (1/2)] :=
  ⟨nextFrame_clock_c1.1 { lastFrame := 500, durationMsec := 1000 } 500
     (by show 500 ≤ 500; decide),
   nextFrame_clock_c1.2.2 { lastFrame := 0, durationMsec := 1000 } 2500 rfl
     (by show (0 : ℤ) < 1000; decide)
     (by show ((2500 - 0 : ℕ) : ℚ) = 5/2 * ((1000 : ℤ) : ℚ); norm_num)⟩

/-! ### C2: the `end run` sentinel -/

/-- Counterexample to C2 as stated: a line exactly equal to `end run`
arriving while the parser is inside a frame block (after `begin frame`, so
the input buffer is non-empty) does **not** mark the instance Stopped -
`readProcess` only recognises the sentinel while the buffer is empty, and
otherwise buffers the line like any other frame-body line. -/
theorem end_run_inside_frame_c2_counter :
    (readLinesA { } ["begin frame", "end run"]).stopped = false ∧
      (readLinesA { } ["begin frame", "end run"]).inputBuffer =
        ["begin frame", "end run"] := by
  constructor <;> decide

/-- C2 (amended). A line exactly equal to `end run` arriving while the input
buffer is empty (outside a frame block) marks the instance Stopped and halts
further processing of the available lines; while the buffer is non-empty it
is buffered like any other frame-body line. -/
theorem end_run_sentinel_c2 :
    (∀ (st : AS) (rest : List String), st.inputBuffer = [] →
      readLinesA st ("end run" :: rest) = { st with stopped := true })
    ∧ (∀ (st : AS) (rest : List String), st.inputBuffer ≠ [] →
      readLinesA st ("end run" :: rest) =
        readLinesA { st with inputBuffer := st.inputBuffer ++ ["end run"] }
          rest) := by
  constructor
  · intro st rest h
    rw [readLinesA, if_pos ⟨h, by decide⟩, if_pos rfl]
  · intro st rest h
    rw [readLinesA, if_neg (by simp [h]), if_neg (by decide)]

/-- Concrete instantiation of `end_run_sentinel_c2`: the sentinel stops the
instance and the lines after it are abandoned; inside a block it is
buffered. -/
theorem end_run_sentinel_c2_witness :
    readLinesA { } ["end run", "begin frame"] = { stopped := true }
    ∧ readLinesA { inputBuffer := ["begin frame"] } ["end run"] =
        readLinesA { inputBuffer := ["begin frame", "end run"] } [] :=
  ⟨end_run_sentinel_c2.1 { } ["begin frame"] rfl,
   end_run_sentinel_c2.2 { inputBuffer := ["begin frame"] } [] (by decide)⟩

/-! ### C3: `updateParameters` (`AnimScript::parameters`) -/

/-- Counterexample to C3 as stated: an Initialized instance whose descriptor
declares live parameters but which has no running child is left completely
unchanged - the value mapping is **not** replaced, because
`AnimScript::parameters` returns early whenever `process` is null. -/
theorem parameters_no_process_c3_counter :
    parametersA
        { initialized := true, liveParams := true,
          paramValues := [("duration", QV.str "2")] }
        [("duration", QV.str "3")] =
      ({ initialized := true, liveParams := true,
          paramValues := [("duration", QV.str "2")] }, [])
    ∧ ({ initialized := true, liveParams := true,
          paramValues := [("duration", QV.str "2")] } : AS).paramValues ≠
        [("duration", QV.str "3")] := by
  constructor <;> decide

/-- C3 (amended). `updateParameters(values)` leaves all instance state
unchanged (and transmits nothing) unless the instance is initialized, a
child process is currently running, **and** the descriptor declares live
parameters; when all three hold it replaces the parameter value mapping,
recomputes `durationMsec`/`repeatMsec`, and transmits an updated parameter
block to the (necessarily running) child. -/
theorem parameters_live_c3 :
    (∀ (st : AS) (pv : PV),
      st.initialized = false ∨ st.hasProcess = false ∨ st.liveParams = false →
      parametersA st pv = (st, []))
    ∧ (∀ (st : AS) (pv : PV), st.initialized = true → st.hasProcess = true →
      st.liveParams = true →
      parametersA st pv =
        ({ st with
            paramValues := pv
            durationMsec := (setDurationA st.absoluteTime pv).1
            repeatMsec := (setDurationA st.absoluteTime pv).2 },
         [Cmd.paramsBlock pv])) := by
  constructor
  · intro st pv h
    have hc : ¬ st.initialized ∨ ¬ st.hasProcess ∨ ¬ st.liveParams := by
      rcases h with h | h | h <;> simp [h]
    rw [parametersA, if_pos hc]
  · intro st pv h1 h2 h3
    rw [parametersA, if_neg (by simp [h1, h2, h3])]

/-- Concrete instantiation of `parameters_live_c3`. -/
theorem parameters_live_c3_witness :
    parametersA { initialized := true, liveParams := true } [("x", QV.int 1)]
      = ({ initialized := true, liveParams := true }, [])
    ∧ parametersA
        { initialized := true, hasProcess := true, liveParams := true }
        [("duration", QV.str "2")] =
      ({ initialized := true, hasProcess := true, liveParams := true,
          paramValues := [("duration", QV.str "2")],
          durationMsec := (setDurationA false [("duration", QV.str "2")]).1,
          repeatMsec := (setDurationA false [("duration", QV.str "2")]).2 },
       [Cmd.paramsBlock [("duration", QV.str "2")]]) :=
  ⟨parameters_live_c3.1 { initialized := true, liveParams := true }
      [("x", QV.int 1)] (Or.inr (Or.inl rfl)),
   parameters_live_c3.2
     { initialized := true, hasProcess := true, liveParams := true }
     [("duration", QV.str "2")] rfl rfl rfl⟩

/-! ### C8: preempting retrigger -/

/-- `nextFrame` never changes the process/flags other than the clock and
`firstFrame`. -/
theorem nextFrameA_state (st : AS) (ts : ℕ) :
    (nextFrameA st ts).1 = { st with lastFrame := ts, firstFrame := true } :=
  rfl

/-- The command list of `nextFrame` is a block of synthetic `frame 1`s
followed by one residual `frame` command. -/
theorem nextFrameA_cmds (st : AS) (ts : ℕ) :
    ∃ n q, (nextFrameA st ts).2 = List.replicate n (Cmd.frame 1) ++ [Cmd.frame q] :=
  ⟨_, _, rfl⟩

/-- `nextFrame` emits no `start` command. -/
theorem nextFrameA_count_start (st : AS) (ts : ℕ) :
    (nextFrameA st ts).2.count Cmd.start = 0 := by
  obtain ⟨n, q, h⟩ := nextFrameA_cmds st ts
  simp [h, List.count_append, List.count_replicate]

/-- `AnimScript::start` on an initialized instance: the resulting state and
handshake commands, spelled out. -/
theorem startA_init (st : AS) (ts : ℕ) (hi : st.initialized = true) :
    startA st ts =
      ({ st with
          colors := []
          stopped := false
          firstFrame := false
          readFrame := false
          readAnyFrame := false
          hasProcess := true
          lastFrame := ts },
       [Cmd.keymapBlock, Cmd.paramsBlock st.paramValues, Cmd.beginRun]) := by
  rw [startA, if_neg (by simp [hi])]

/-- A non-preempting retrigger on an initialized instance leaves a running
child and the clock at its timestamp; its commands contain a `frame` and
exactly one final `start`. -/
theorem retriggerNoPre_spec (st : AS) (ts : ℕ) (hi : st.initialized = true) :
    (retriggerNoPre st ts).1.hasProcess = true
    ∧ (retriggerNoPre st ts).1.lastFrame = ts
    ∧ (∃ q, Cmd.frame q ∈ (retriggerNoPre st ts).2)
    ∧ (retriggerNoPre st ts).2.count Cmd.start = 1 := by
  have hmem : ∀ (st' : AS), ∃ q, Cmd.frame q ∈ (nextFrameA st' ts).2 := by
    intro st'
    obtain ⟨n, q, h⟩ := nextFrameA_cmds st' ts
    exact ⟨q, by simp [h]⟩
  by_cases hp : st.hasProcess = true
  · have h1 : retriggerNoPre st ts =
        ((nextFrameA st ts).1, (nextFrameA st ts).2 ++ [Cmd.start]) := by
      rw [retriggerNoPre, if_neg (by simp [hi])]
      simp [hp]
    rw [h1]
    refine ⟨by simp [nextFrameA_state, hp], by simp [nextFrameA_state], ?_, ?_⟩
    · obtain ⟨q, hq⟩ := hmem st
      exact ⟨q, by simp [hq]⟩
    · simp [List.count_append, nextFrameA_count_start]
  · have h1 : retriggerNoPre st ts =
        ((nextFrameA (startA st ts).1 ts).1,
          (startA st ts).2 ++ (nextFrameA (startA st ts).1 ts).2 ++
            [Cmd.start]) := by
      rw [retriggerNoPre, if_neg (by simp [hi])]
      simp [hp]
    rw [h1, startA_init st ts hi]
    refine ⟨by simp [nextFrameA_state], by simp [nextFrameA_state], ?_, ?_⟩
    · obtain ⟨q, hq⟩ := hmem { st with
        colors := []
        stopped := false
        firstFrame := false
        readFrame := false
        readAnyFrame := false
        hasProcess := true
        lastFrame := ts }
      exact ⟨q, by simp [hq]⟩
    · simp [List.count_append, nextFrameA_count_start]

/-- C8. An initialized instance with preemption enabled, `repeatMsec > 0`,
and `allowPreempt = true` first performs the full non-preempting retrigger
at `timestamp - repeatMsec` (whose command block contains a `frame` command
and exactly one `start`, and which leaves the clock at the earlier time),
then advances the clock to `timestamp` and sends `start`; exactly two
`start` commands are sent in total (one extra level of recursion) and the
clock ends at `timestamp`. -/
theorem retrigger_preempt_c8 (st : AS) (ts : ℕ) (hi : st.initialized = true)
    (hp : st.preempt = true) (hr : 0 < st.repeatMsec) :
    (retriggerA st ts true).2 =
      (retriggerNoPre st (sub64 ts st.repeatMsec.toNat)).2 ++
        (nextFrameA (retriggerNoPre st (sub64 ts st.repeatMsec.toNat)).1 ts).2 ++
        [Cmd.start]
    ∧ (∃ q, Cmd.frame q ∈ (retriggerNoPre st (sub64 ts st.repeatMsec.toNat)).2)
    ∧ (retriggerNoPre st (sub64 ts st.repeatMsec.toNat)).1.lastFrame =
        sub64 ts st.repeatMsec.toNat
    ∧ (retriggerNoPre st (sub64 ts st.repeatMsec.toNat)).2.count Cmd.start = 1
    ∧ (retriggerA st ts true).2.count Cmd.start = 2
    ∧ (retriggerA st ts true).1.lastFrame = ts := by
  obtain ⟨hproc, hlast, hfr, hcount⟩ :=
    retriggerNoPre_spec st (sub64 ts st.repeatMsec.toNat) hi
  have hunfold : retriggerA st ts true =
      ((nextFrameA (retriggerNoPre st (sub64 ts st.repeatMsec.toNat)).1 ts).1,
        (retriggerNoPre st (sub64 ts st.repeatMsec.toNat)).2 ++ [] ++
        (nextFrameA (retriggerNoPre st (sub64 ts st.repeatMsec.toNat)).1 ts).2 ++
        [Cmd.start]) := by
    rw [retriggerA, if_neg (by simp [hi]),
      if_pos (show (true : Bool) = true ∧ st.preempt = true ∧ 0 < st.repeatMsec
        from ⟨rfl, hp, hr⟩)]
    simp [hproc]
  refine ⟨by rw [hunfold]; simp, hfr, hlast, hcount, ?_, ?_⟩
  · rw [hunfold]
    simp [List.count_append, hcount, nextFrameA_count_start]
  · rw [hunfold]
    simp [nextFrameA_state]

/-- Demo instance for the C8 witness: `repeatMsec = 500`. -/
def c8State : AS :=
  { initialized := true, hasProcess := true, preempt := true,
    repeatMsec := 500, durationMsec := 1000, lastFrame := 9000 }

/-- Concrete instantiation of `retrigger_preempt_c8`: at `timestamp = 10000`
with `repeatMsec = 500` the internal non-preempting retrigger runs at `9500`
before the final `start` for `10000`. -/
theorem retrigger_preempt_c8_witness :
    sub64 10000 c8State.repeatMsec.toNat = 9500
    ∧ (retriggerNoPre c8State (sub64 10000 c8State.repeatMsec.toNat)).1.lastFrame =
        sub64 10000 c8State.repeatMsec.toNat
    ∧ (retriggerA c8State 10000 true).2.count Cmd.start = 2
    ∧ (retriggerA c8State 10000 true).1.lastFrame = 10000 :=
  ⟨by decide,
   (retrigger_preempt_c8 c8State 10000 rfl rfl (by decide)).2.2.1,
   (retrigger_preempt_c8 c8State 10000 rfl rfl (by decide)).2.2.2.2.1,
   (retrigger_preempt_c8 c8State 10000 rfl rfl (by decide)).2.2.2.2.2⟩

/-! ### C9: `frame` throttling -/

/-- Events driving one instance within a run of `frame()` calls: a scheduler
tick (`AnimScript::frame(ts)`) or a batch of child-output lines drained by
`readProcess`. -/
inductive Ev
  | tick (ts : ℕ)
  | recv (lines : List String)
deriving DecidableEq

/-- One event step on the instance state. -/
def stepEv (st : AS) : Ev → AS
  | .tick ts => (frameA st ts).1
  | .recv lines => readLinesA st lines

/-- Run a list of events. -/
def runList (st : AS) (evs : List Ev) : AS :=
  evs.foldl stepEv st

/-- The guard under which `AnimScript::frame` advances the animation (calls
`nextFrame`): initialized, not stopped, and either no child exists yet (the
lazy `start` resets the first-frame flag before the check), the previous
frame's output was consumed (`readFrame`), or no frame was advanced since
the last start (`!firstFrame`). -/
def tickAdvances (st : AS) : Bool :=
  st.initialized && !st.stopped &&
    (!st.hasProcess || st.readFrame || !st.firstFrame)

theorem runList_append (st : AS) (a b : List Ev) :
    runList st (a ++ b) = runList (runList st a) b :=
  List.foldl_append _ _ _ _

theorem runList_cons (st : AS) (e : Ev) (b : List Ev) :
    runList st (e :: b) = runList (stepEv st e) b :=
  rfl

/-- `frameA` unfolded in the running-child case when the guard holds: the
animation advances. -/
theorem frameA_run_adv (st : AS) (ts : ℕ) (hi : st.initialized = true)
    (hs : st.stopped = false) (hp : st.hasProcess = true)
    (hg : st.readFrame = true ∨ st.firstFrame = false) :
    frameA st ts =
      ({ (nextFrameA st ts).1 with readFrame := false },
        (nextFrameA st ts).2) := by
  rw [frameA, if_neg (by simp [hi, hs])]
  rcases hg with hg | hg <;> simp [hp, hg]

/-- `frameA` unfolded in the running-child case when the guard fails: only
the frame-consumed flag is cleared, nothing is sent. -/
theorem frameA_run_noadv (st : AS) (ts : ℕ) (hi : st.initialized = true)
    (hs : st.stopped = false) (hp : st.hasProcess = true)
    (hg1 : st.readFrame = false) (hg2 : st.firstFrame = true) :
    frameA st ts = ({ st with readFrame := false }, []) := by
  rw [frameA, if_neg (by simp [hi, hs])]
  simp [hp, hg1, hg2]

/-- `frameA` unfolded in the lazy-start case: the fresh child resets the
first-frame flag, so the animation always advances. -/
theorem frameA_starting (st : AS) (ts : ℕ) (hi : st.initialized = true)
    (hs : st.stopped = false) (hp : st.hasProcess = false) :
    frameA st ts =
      ({ (nextFrameA (startA st ts).1 ts).1 with readFrame := false },
        (startA st ts).2 ++ (nextFrameA (startA st ts).1 ts).2) := by
  rw [frameA, if_neg (by simp [hi, hs])]
  simp only [hp, Bool.not_eq_true, if_pos]
  have h1 : (startA st ts).1.readFrame = false := by
    rw [startA_init st ts hi]
  have h2 : (startA st ts).1.firstFrame = false := by
    rw [startA_init st ts hi]
  simp [h1, h2]

/-- The invariant holding right after an advancing `frame()` call: running
child, a frame command sent, its output not yet consumed. -/
def Qinv (st : AS) : Prop :=
  st.initialized = true ∧ st.hasProcess = true ∧ st.firstFrame = true ∧
    st.readFrame = false

theorem Qinv_not_advance (st : AS) (h : Qinv st) :
    tickAdvances st = false := by
  obtain ⟨h1, h2, h3, h4⟩ := h
  simp [tickAdvances, h1, h2, h3, h4]

/-- After an advancing tick the invariant `Qinv` holds. -/
theorem tick_establishes_Qinv (st : AS) (ts : ℕ)
    (h : tickAdvances st = true) : Qinv ((frameA st ts).1) := by
  have hi : st.initialized = true := by
    cases hI : st.initialized <;> simp [tickAdvances, hI] at h ⊢
  have hs : st.stopped = false := by
    cases hS : st.stopped <;> simp [tickAdvances, hS] at h ⊢
  by_cases hp : st.hasProcess = true
  · have hg : st.readFrame = true ∨ st.firstFrame = false := by
      simpa [tickAdvances, hi, hs, hp] using h
    rw [frameA_run_adv st ts hi hs hp hg]
    exact ⟨by simp [nextFrameA_state, hi],
      by simp [nextFrameA_state, hp], by simp [nextFrameA_state], rfl⟩
  · have hp' : st.hasProcess = false := by simpa using hp
    rw [frameA_starting st ts hi hs hp']
    refine ⟨?_, ?_, by simp [nextFrameA_state], rfl⟩
    · rw [startA_init st ts hi]
      simp [nextFrameA_state, hi]
    · rw [startA_init st ts hi]
      simp [nextFrameA_state]

/-- A non-advancing tick from a `Qinv` state preserves `Qinv`. -/
theorem tick_preserves_Qinv (st : AS) (ts : ℕ) (h : Qinv st) :
    Qinv ((frameA st ts).1) := by
  obtain ⟨h1, h2, h3, h4⟩ := h
  by_cases hs : st.stopped = true
  · rw [frameA, if_pos (by simp [hs])]
    exact ⟨h1, h2, h3, h4⟩
  · have hs' : st.stopped = false := by simpa using hs
    rw [frameA_run_noadv st ts h1 hs' h2 h4 h3]
    exact ⟨h1, h2, h3, rfl⟩

/-- `readProcess` never touches the lifecycle flags other than `stopped` and
the frame-consumed flags. -/
theorem readLinesA_preserves (st : AS) (lines : List String) :
    (readLinesA st lines).initialized = st.initialized
    ∧ (readLinesA st lines).hasProcess = st.hasProcess
    ∧ (readLinesA st lines).firstFrame = st.firstFrame := by
  induction lines generalizing st with
  | nil => exact ⟨rfl, rfl, rfl⟩
  | cons l rest ih =>
    by_cases h1 : st.inputBuffer = [] ∧ l ≠ "begin frame"
    · rw [readLinesA, if_pos h1]
      by_cases h2 : l = "end run"
      · rw [if_pos h2]
        exact ⟨rfl, rfl, rfl⟩
      · rw [if_neg h2]
        exact ih st
    · rw [readLinesA, if_neg h1]
      by_cases h3 : l = "end frame"
      · rw [if_pos h3]
        exact ih _
      · rw [if_neg h3]
        exact ih _

/-- Between a `Qinv` state and any later state of the run, either `Qinv`
still holds or some intervening `recv` event left the frame-consumed flag
set (a completed frame was read). -/
theorem Qinv_run (evs : List Ev) (st : AS) (h : Qinv st) :
    Qinv (runList st evs)
    ∨ ∃ l1 ls l2, evs = l1 ++ Ev.recv ls :: l2 ∧
        (runList st (l1 ++ [Ev.recv ls])).readFrame = true := by
  induction evs generalizing st with
  | nil => exact Or.inl h
  | cons ev rest ih =>
    cases ev with
    | tick ts =>
      have hq : Qinv (stepEv st (.tick ts)) := tick_preserves_Qinv st ts h
      rcases ih (stepEv st (.tick ts)) hq with hl | ⟨l1, ls, l2, heq, hrf⟩
      · exact Or.inl hl
      · refine Or.inr ⟨Ev.tick ts :: l1, ls, l2, by rw [heq, List.cons_append], ?_⟩
        rw [List.cons_append, runList_cons]
        exact hrf
    | recv lines =>
      by_cases hrf : (readLinesA st lines).readFrame = true
      · exact Or.inr ⟨[], lines, rest, rfl, hrf⟩
      · have hq : Qinv (stepEv st (.recv lines)) := by
          obtain ⟨p1, p2, p3⟩ := readLinesA_preserves st lines
          exact ⟨p1.trans h.1, p2.trans h.2.1, p3.trans h.2.2.1,
            by simpa using hrf⟩
        rcases ih (stepEv st (.recv lines)) hq with hl | ⟨l1, ls, l2, heq, hrf2⟩
        · exact Or.inl hl
        · refine Or.inr ⟨Ev.recv lines :: l1, ls, l2,
            by rw [heq, List.cons_append], ?_⟩
          rw [List.cons_append, runList_cons]
          exact hrf2

/-- C9. (i) `frame(timestamp)` is a no-op when the instance is stopped or
uninitialized; (ii) it emits a `frame` command (i.e. calls `nextFrame`) [iff]
the previous frame's output was consumed, or no frame was advanced since the
last (lazy) start of the child, or no child exists yet; (iii) in any event
run, between one advancing `frame()` call and a later advancing one there is
always a `recv` batch after which a completed frame had been read from the
child (`readFrame` set). -/
theorem frame_throttle_c9 :
    (∀ (st : AS) (ts : ℕ), st.initialized = false ∨ st.stopped = true →
      frameA st ts = (st, []))
    ∧ (∀ (st : AS) (ts : ℕ),
      (∃ q, Cmd.frame q ∈ (frameA st ts).2) ↔ tickAdvances st = true)
    ∧ (∀ (st : AS) (evs1 evs2 : List Ev) (ts1 : ℕ),
      tickAdvances (runList st evs1) = true →
      tickAdvances (runList st (evs1 ++ Ev.tick ts1 :: evs2)) = true →
      ∃ l1 ls l2, evs2 = l1 ++ Ev.recv ls :: l2 ∧
        (runList st (evs1 ++ Ev.tick ts1 :: (l1 ++ [Ev.recv ls]))).readFrame =
          true) := by
  refine ⟨fun st ts h => ?_, fun st ts => ?_, fun st evs1 evs2 ts1 h1 h2 => ?_⟩
  · rcases h with h | h
    · rw [frameA, if_pos (by simp [h])]
    · rw [frameA, if_pos (by simp [h])]
  · constructor
    · rintro ⟨q, hq⟩
      by_cases hi : st.initialized = true
      · by_cases hs : st.stopped = false
        · by_cases hp : st.hasProcess = true
          · by_cases hg : st.readFrame = true ∨ st.firstFrame = false
            · simp only [tickAdvances, hi, hs, hp]
              rcases hg with hg | hg <;> simp [hg]
            · rw [not_or] at hg
              have hg1 : st.readFrame = false := by simpa using hg.1
              have hg2 : st.firstFrame = true := by simpa using hg.2
              rw [frameA_run_noadv st ts hi hs hp hg1 hg2] at hq
              simp at hq
          · have hp' : st.hasProcess = false := by simpa using hp
            simp [tickAdvances, hi, hs, hp']
        · have hs' : st.stopped = true := by simpa using hs
          rw [frameA, if_pos (by simp [hs'])] at hq
          simp at hq
      · have hi' : st.initialized = false := by simpa using hi
        rw [frameA, if_pos (by simp [hi'])] at hq
        simp at hq
    · intro h
      have hi : st.initialized = true := by
        cases hI : st.initialized <;> simp [tickAdvances, hI] at h ⊢
      have hs : st.stopped = false := by
        cases hS : st.stopped <;> simp [tickAdvances, hS] at h ⊢
      by_cases hp : st.hasProcess = true
      · have hg : st.readFrame = true ∨ st.firstFrame = false := by
          simpa [tickAdvances, hi, hs, hp] using h
        rw [frameA_run_adv st ts hi hs hp hg]
        obtain ⟨n, q, hq⟩ := nextFrameA_cmds st ts
        exact ⟨q, by simp [hq]⟩
      · have hp' : st.hasProcess = false := by simpa using hp
        rw [frameA_starting st ts hi hs hp']
        obtain ⟨n, q, hq⟩ := nextFrameA_cmds (startA st ts).1 ts
        exact ⟨q, by simp [hq]⟩
  · have hq1 : Qinv (runList st (evs1 ++ [Ev.tick ts1])) := by
      rw [runList_append]
      exact tick_establishes_Qinv (runList st evs1) ts1 h1
    have hsplit : runList st (evs1 ++ Ev.tick ts1 :: evs2) =
        runList (runList st (evs1 ++ [Ev.tick ts1])) evs2 := by
      rw [← runList_append]
      congr 1
      simp
    rcases Qinv_run evs2 _ hq1 with hl | ⟨l1, ls, l2, heq, hrf⟩
    · rw [hsplit] at h2
      rw [Qinv_not_advance _ hl] at h2
      cases h2
    · refine ⟨l1, ls, l2, heq, ?_⟩
      have : runList st (evs1 ++ Ev.tick ts1 :: (l1 ++ [Ev.recv ls])) =
          runList (runList st (evs1 ++ [Ev.tick ts1])) (l1 ++ [Ev.recv ls]) := by
        rw [← runList_append]
        congr 1
        simp
      rw [this]
      exact hrf

/-- Concrete instantiation of `frame_throttle_c9`: a run with an advancing
tick, a completed frame read, and a second advancing tick. -/
theorem frame_throttle_c9_witness :
    tickAdvances (runList { initialized := true } []) = true
    ∧ (∃ l1 ls l2,
        [Ev.recv ["begin frame", "end frame"]] = l1 ++ Ev.recv ls :: l2 ∧
        (runList { initialized := true }
            ([] ++ Ev.tick 100 :: (l1 ++ [Ev.recv ls]))).readFrame = true) :=
  ⟨by decide,
   frame_throttle_c9.2.2 { initialized := true } []
     [Ev.recv ["begin frame", "end frame"]] 100
     (by decide) (by with_unfolding_all decide)⟩

/-! ### C4: scan acceptance -/

/-- The required-metadata check at the end of `AnimScript::load`. -/
def requiredOk (info : AnimInfo) : Prop :=
  info.guid ≠ 0 ∧ info.name ≠ "" ∧ info.version ≠ "" ∧ info.year ≠ "" ∧
    info.author ≠ "" ∧ info.license ≠ ""

instance decRequiredOk (info : AnimInfo) : Decidable (requiredOk info) :=
  inferInstanceAs (Decidable (info.guid ≠ 0 ∧ info.name ≠ "" ∧
    info.version ≠ "" ∧ info.year ≠ "" ∧ info.author ≠ "" ∧
    info.license ≠ ""))

/-- `load` succeeds exactly when the required-metadata check passes. -/
theorem finalize_isSome (st : ParseState) :
    (finalize st).isSome = true ↔ requiredOk st.info := by
  have hiff : requiredOk st.info ↔
      ¬ (st.info.guid = 0 ∨ st.info.name = "" ∨ st.info.version = "" ∨
        st.info.year = "" ∨ st.info.author = "" ∨ st.info.license = "") := by
    rw [requiredOk]
    push_neg
    exact Iff.rfl
  rw [finalize]
  by_cases hc : st.info.guid = 0 ∨ st.info.name = "" ∨ st.info.version = "" ∨
      st.info.year = "" ∨ st.info.author = "" ∨ st.info.license = ""
  · simp [hc, hiff]
  · simp [hc, hiff]

/-- The guids accepted by the scan loop are the first occurrences of the
valid candidates' guids, carrying the already-registered guids as the seen
set. -/
theorem scanList_guids (cands : List Candidate) (acc : List AnimInfo) :
    (scanList cands acc).map (·.guid) =
      acc.map (·.guid) ++ firstSeen (validGuids cands) (acc.map (·.guid)) := by
  induction cands generalizing acc with
  | nil => simp [scanList, validGuids, firstSeen]
  | cons c cs ih =>
    cases hl : loadCandidate c with
    | none =>
      have hv : validGuids (c :: cs) = validGuids cs := by
        simp [validGuids, List.filterMap_cons, hl]
      simp only [scanList, hl]
      rw [hv]
      exact ih acc
    | some info =>
      have hv : validGuids (c :: cs) = info.guid :: validGuids cs := by
        simp [validGuids, List.filterMap_cons, hl]
      have hany : (acc.any fun s => s.guid = info.guid) = true ↔
          info.guid ∈ acc.map (·.guid) := by
        rw [List.any_eq_true]
        constructor
        · rintro ⟨s, hs, h⟩
          exact List.mem_map.mpr ⟨s, hs, by simpa using h⟩
        · intro h
          obtain ⟨s, hs, h⟩ := List.mem_map.mp h
          exact ⟨s, hs, by simpa using h⟩
      simp only [scanList, hl]
      rw [hv]
      by_cases hmem : info.guid ∈ acc.map (·.guid)
      · rw [if_pos (hany.mpr hmem), firstSeen, if_pos hmem]
        exact ih acc
      · rw [if_neg (fun h => hmem (hany.mp h)), firstSeen, if_neg hmem]
        rw [ih (acc ++ [info])]
        simp

theorem firstSeen_of_nodup (l : List ℕ) (seen : List ℕ) (hd : l.Nodup)
    (hdisj : ∀ x ∈ l, x ∉ seen) : firstSeen l seen = l := by
  induction l generalizing seen with
  | nil => rfl
  | cons g gs ih =>
    rw [List.nodup_cons] at hd
    rw [firstSeen, if_neg (hdisj g (List.mem_cons_self g gs))]
    congr 1
    refine ih (seen ++ [g]) hd.2 ?_
    intro x hx hmem
    rw [List.mem_append, List.mem_singleton] at hmem
    rcases hmem with h | h
    · exact hdisj x (List.mem_cons_of_mem g hx) h
    · exact hd.1 (h ▸ hx)

/-- C4. A candidate is accepted by a scan [iff] its `--ckb-info` run did not
time out and the parsed output passes the required-metadata check; the
accepted guids are the first occurrences of the valid candidates' guids
(first-seen wins, rejected candidates contribute nothing); when the valid
candidates' guids are pairwise distinct, the scan yields exactly as many
descriptors as there are valid candidates. -/
theorem scan_accepts_c4 :
    (∀ c : Candidate, (loadCandidate c).isSome = true ↔
      (c.timedOut = false ∧ requiredOk (parseLines c.lines).info))
    ∧ (∀ cands : List Candidate,
      (scanList cands []).map (·.guid) = firstSeen (validGuids cands) [])
    ∧ (∀ cands : List Candidate, (validGuids cands).Nodup →
      (scanList cands []).length = (validGuids cands).length) := by
  have h1 : ∀ c : Candidate, (loadCandidate c).isSome = true ↔
      (c.timedOut = false ∧ requiredOk (parseLines c.lines).info) := by
    intro c
    rw [loadCandidate]
    by_cases ht : c.timedOut = true
    · simp [ht]
    · have ht' : c.timedOut = false := by simpa using ht
      rw [if_neg (by simp [ht'])]
      rw [loadLines, finalize_isSome]
      simp [ht']
  refine ⟨h1, fun cands => ?_, fun cands hnd => ?_⟩
  · have := scanList_guids cands []
    simpa using this
  · have hmap : (scanList cands []).map (·.guid) = validGuids cands := by
      have := scanList_guids cands []
      simpa [firstSeen_of_nodup (validGuids cands) [] hnd (by simp)]
        using this
    calc (scanList cands []).length
        = ((scanList cands []).map (·.guid)).length := (List.length_map _ _).symm
      _ = (validGuids cands).length := by rw [hmap]

/-- A valid demo candidate. -/
def c4a : Candidate :=
  ⟨false, ["guid 00000000-0000-0000-0000-000000000001", "name n",
    "version 1.0", "year 2015", "author a", "license gpl"]⟩

/-- The same output, but the info run timed out. -/
def c4b : Candidate :=
  ⟨true, ["guid 00000000-0000-0000-0000-000000000001", "name n",
    "version 1.0", "year 2015", "author a", "license gpl"]⟩

/-- A second valid demo candidate with a distinct guid. -/
def c4c : Candidate :=
  ⟨false, ["guid 00000000-0000-0000-0000-000000000002", "name m",
    "version 1", "year 2016", "author b", "license mit"]⟩

/-- Concrete instantiation of `scan_accepts_c4`: one timed-out candidate
among two valid ones yields exactly the two valid descriptors. -/
theorem scan_accepts_c4_witness :
    (loadCandidate c4a).isSome = true
    ∧ (scanList [c4a, c4b, c4c] []).length =
        (validGuids [c4a, c4b, c4c]).length :=
  ⟨(scan_accepts_c4.1 c4a).mpr ⟨rfl, by decide⟩,
   scan_accepts_c4.2.2 [c4a, c4b, c4c] (by decide)⟩

/-! ### C6: the `duration` parameter -/

/-- A `param <type> duration ...` line is rejected (the parse state is
unchanged) whenever time-mode is absolute, the declared type is not Double,
or the decoded default lies outside `[0.1, 86400]`. -/
theorem processComponents_duration_reject (st : ParseState)
    (t c3 c4 c5 c6 c7 : String)
    (h : st.info.absoluteTime = true ∨ parseType (toLowerStr t) ≠ PType.double ∨
      (QV.str (urlParam c5)).toDouble < 1/10 ∨
      86400 < (QV.str (urlParam c5)).toDouble) :
    processComponents st ["param", t, "duration", c3, c4, c5, c6, c7] = st := by
  rw [processComponents, if_neg (by simp)]
  simp only [List.headD_cons, List.getD_cons_zero, List.getD_cons_succ]
  rw [if_neg (by decide), if_neg (by decide), if_neg (by decide),
    if_neg (by decide), if_neg (by decide), if_neg (by decide),
    if_neg (by decide), if_neg (by decide), if_neg (by decide),
    if_neg (by decide), if_neg (by decide), if_neg (by decide),
    if_pos (by decide), if_neg (by simp)]
  have hpad : (["param", t, "duration", c3, c4, c5, c6, c7] ++
      List.replicate
        (8 - (["param", t, "duration", c3, c4, c5, c6, c7] :
          List String).length) "") =
      ["param", t, "duration", c3, c4, c5, c6, c7] := by simp
  rw [hpad]
  simp only [List.getD_cons_zero, List.getD_cons_succ]
  by_cases hty : parseType (toLowerStr t) = PType.invalid
  · rw [if_pos hty]
  · rw [if_neg hty]
    have hdur : toLowerStr "duration" = "duration" := by decide
    rw [hdur]
    by_cases hhas : hasParamF st.info.params "duration" = true
    · rw [if_pos hhas]
    · rw [if_neg hhas]
      rw [if_neg (fun hcon => (by decide :
        ¬ ("duration" = "trigger" ∨ "duration" = "kptrigger")) hcon.1)]
      rw [if_pos rfl]
      rw [if_pos h]

/-- C6. (i) A `param <type> duration ...` line is a no-op on the parse state
whenever time-mode is absolute, the declared type is not Double, or the
decoded default is outside `[0.1, 86400]`; (ii) when time-mode is relative,
the type is Double, `duration` is not yet present and the default is in
range, the parameter is appended with its minimum forced to `0.1` and its
maximum to `86400`, and the default duration becomes its value; (iii) when
the loop ends with no valid duration recorded (`defaultDuration < 0`) and
time-mode is relative, `finalize` injects a Double `duration` parameter with
default `1`, minimum `0.1`, maximum `86400`. -/
theorem duration_param_c6 :
    (∀ (st : ParseState) (t c3 c4 c5 c6 c7 : String),
      (st.info.absoluteTime = true ∨ parseType (toLowerStr t) ≠ PType.double ∨
        parseDouble (urlParam c5) < 1/10 ∨ 86400 < parseDouble (urlParam c5)) →
      processComponents st ["param", t, "duration", c3, c4, c5, c6, c7] = st)
    ∧ (∀ (st : ParseState) (t c3 c4 c5 c6 c7 : String),
      st.info.absoluteTime = false → parseType (toLowerStr t) = PType.double →
      hasParamF st.info.params "duration" = false →
      1/10 ≤ parseDouble (urlParam c5) → parseDouble (urlParam c5) ≤ 86400 →
      processComponents st ["param", t, "duration", c3, c4, c5, c6, c7] =
        { st with
            info := { st.info with params := st.info.params ++
              [⟨PType.double, "duration", urlParam c3, urlParam c4,
                QV.str (urlParam c5), QV.dbl (1/10), QV.dbl 86400⟩] }
            defaultDuration := parseDouble (urlParam c5) })
    ∧ (∀ st : ParseState, st.defaultDuration < 0 →
      st.info.absoluteTime = false → requiredOk st.info →
      ∃ info, finalize st = some info ∧ durationParam 1 ∈ info.params) := by
  refine ⟨fun st t c3 c4 c5 c6 c7 h => ?_,
    fun st t c3 c4 c5 c6 c7 habs hty hhas hlo hhi => ?_,
    fun st hdd habs hreq => ?_⟩
  · refine processComponents_duration_reject st t c3 c4 c5 c6 c7 ?_
    rcases h with h | h | h | h
    · exact Or.inl h
    · exact Or.inr (Or.inl h)
    · exact Or.inr (Or.inr (Or.inl h))
    · exact Or.inr (Or.inr (Or.inr h))
  · rw [processComponents, if_neg (by simp)]
    simp only [List.headD_cons, List.getD_cons_zero, List.getD_cons_succ]
    rw [if_neg (by decide), if_neg (by decide), if_neg (by decide),
      if_neg (by decide), if_neg (by decide), if_neg (by decide),
      if_neg (by decide), if_neg (by decide), if_neg (by decide),
      if_neg (by decide), if_neg (by decide), if_neg (by decide),
      if_pos (by decide), if_neg (by simp)]
    have hpad : (["param", t, "duration", c3, c4, c5, c6, c7] ++
        List.replicate
          (8 - (["param", t, "duration", c3, c4, c5, c6, c7] :
            List String).length) "") =
        ["param", t, "duration", c3, c4, c5, c6, c7] := by simp
    rw [hpad]
    simp only [List.getD_cons_zero, List.getD_cons_succ]
    rw [if_neg (by rw [hty]; decide)]
    have hdur : toLowerStr "duration" = "duration" := by decide
    rw [hdur, if_neg (by rw [hhas]; decide)]
    rw [if_neg (fun hcon => (by decide :
      ¬ ("duration" = "trigger" ∨ "duration" = "kptrigger")) hcon.1)]
    rw [if_pos rfl]
    rw [if_neg (by
      push_neg
      exact ⟨by simp [habs], hty, hlo, hhi⟩)]
    rw [hty]
    rfl
  · rw [finalize, if_neg (by
      rcases hreq with ⟨a, b, c, d, e, f⟩
      push_neg
      exact ⟨a, b, c, d, e, f⟩)]
    refine ⟨_, rfl, ?_⟩
    simp only [apply_ite AnimInfo.params]
    split <;> split <;> split <;>
      simp_all [List.mem_append, habs, hdd]

/-- Concrete instantiation of `duration_param_c6`: a default of `0.05` is
rejected (the state is unchanged and the descriptor later gets the injected
default-1 duration), while a default of `5` is accepted with forced
bounds. -/
theorem duration_param_c6_witness :
    processComponents {}
        ["param", "double", "duration", "", "", "0.05", "", ""] = {}
    ∧ processComponents {}
        ["param", "double", "duration", "", "", "5", "", ""] =
      { ({} : ParseState) with
          info := { ({} : ParseState).info with
            params := ({} : ParseState).info.params ++
              [⟨PType.double, "duration", urlParam "", urlParam "",
                QV.str (urlParam "5"), QV.dbl (1/10), QV.dbl 86400⟩] }
          defaultDuration := parseDouble (urlParam "5") }
    ∧ (∃ info, finalize (parseLines c4a.lines) = some info ∧
        durationParam 1 ∈ info.params) :=
  ⟨duration_param_c6.1 {} "double" "" "" "0.05" "" ""
     (Or.inr (Or.inr (Or.inl (by with_unfolding_all decide)))),
   duration_param_c6.2.1 {} "double" "" "" "5" "" "" rfl (by decide)
     (by decide) (by with_unfolding_all decide) (by with_unfolding_all decide),
   duration_param_c6.2.2 (parseLines c4a.lines) (by with_unfolding_all decide)
     (by with_unfolding_all decide) (by with_unfolding_all decide)⟩

/-! ### Case-folding helpers and the parser step shape -/

theorem char_toLower_idem (c : Char) : c.toLower.toLower = c.toLower := by
  by_cases h : 65 ≤ c.toNat ∧ c.toNat ≤ 90
  · have h1 : c.toLower = Char.ofNat (c.toNat + 32) := by
      simp only [Char.toLower]
      rw [if_pos ⟨h.1, h.2⟩]
    rw [h1]
    obtain ⟨h65, h90⟩ := h
    set n := c.toNat with hn
    interval_cases n <;> decide
  · have h1 : c.toLower = c := by
      simp only [Char.toLower]
      rw [if_neg h]
    rw [h1, h1]

theorem toLowerStr_idem (s : String) : toLowerStr (toLowerStr s) = toLowerStr s := by
  simp only [toLowerStr]
  congr 1
  show (s.data.map Char.toLower).map Char.toLower = s.data.map Char.toLower
  rw [List.map_map]
  exact List.map_congr_left fun a _ => char_toLower_idem a


theorem processComponents_shape (st : ParseState) (comps : List String) :
    ((processComponents st comps).info.absoluteTime = st.info.absoluteTime
      ∧ (processComponents st comps).defaultDuration = st.defaultDuration
      ∧ (processComponents st comps).info.params = st.info.params)
    ∨ (¬ 0 < st.defaultDuration
      ∧ (processComponents st comps).defaultDuration = st.defaultDuration
      ∧ (processComponents st comps).info.params = st.info.params)
    ∨ (st.info.absoluteTime = false
      ∧ (processComponents st comps).info.absoluteTime = false
      ∧ 0 < (processComponents st comps).defaultDuration
      ∧ ∃ p, p.name = "duration"
          ∧ (processComponents st comps).info.params = st.info.params ++ [p])
    ∨ ((processComponents st comps).info.absoluteTime = st.info.absoluteTime
      ∧ (processComponents st comps).defaultDuration = st.defaultDuration
      ∧ ∃ p, (processComponents st comps).info.params = st.info.params ++ [p]
          ∧ toLowerStr p.name ≠ "duration" ∧ toLowerStr p.name ≠ "repeat"
          ∧ toLowerStr p.name ≠ "kprepeat" ∧ toLowerStr p.name ≠ "stop"
          ∧ toLowerStr p.name ≠ "kpstop") := by
  by_cases h0 : comps.length < 2
  · rw [processComponents, if_pos h0]
    exact Or.inl ⟨rfl, rfl, rfl⟩
  rw [processComponents, if_neg h0]
  by_cases h1 : trimStr (comps.headD "") = "guid"
  · rw [if_pos h1]; exact Or.inl ⟨rfl, rfl, rfl⟩
  rw [if_neg h1]
  by_cases h2 : trimStr (comps.headD "") = "name"
  · rw [if_pos h2]; exact Or.inl ⟨rfl, rfl, rfl⟩
  rw [if_neg h2]
  by_cases h3 : trimStr (comps.headD "") = "version"
  · rw [if_pos h3]; exact Or.inl ⟨rfl, rfl, rfl⟩
  rw [if_neg h3]
  by_cases h4 : trimStr (comps.headD "") = "year"
  · rw [if_pos h4]; exact Or.inl ⟨rfl, rfl, rfl⟩
  rw [if_neg h4]
  by_cases h5 : trimStr (comps.headD "") = "author"
  · rw [if_pos h5]; exact Or.inl ⟨rfl, rfl, rfl⟩
  rw [if_neg h5]
  by_cases h6 : trimStr (comps.headD "") = "license"
  · rw [if_pos h6]; exact Or.inl ⟨rfl, rfl, rfl⟩
  rw [if_neg h6]
  by_cases h7 : trimStr (comps.headD "") = "description"
  · rw [if_pos h7]; exact Or.inl ⟨rfl, rfl, rfl⟩
  rw [if_neg h7]
  by_cases h8 : trimStr (comps.headD "") = "kpmode"
  · rw [if_pos h8]; exact Or.inl ⟨rfl, rfl, rfl⟩
  rw [if_neg h8]
  by_cases h9 : trimStr (comps.headD "") = "time"
  · rw [if_pos h9]
    by_cases hdd : 0 < st.defaultDuration
    · rw [if_pos hdd]; exact Or.inl ⟨rfl, rfl, rfl⟩
    · rw [if_neg hdd]; exact Or.inr (Or.inl ⟨hdd, rfl, rfl⟩)
  rw [if_neg h9]
  by_cases h10 : trimStr (comps.headD "") = "repeat"
  · rw [if_pos h10]; exact Or.inl ⟨rfl, rfl, rfl⟩
  rw [if_neg h10]
  by_cases h11 : trimStr (comps.headD "") = "preempt"
  · rw [if_pos h11]; exact Or.inl ⟨rfl, rfl, rfl⟩
  rw [if_neg h11]
  by_cases h12 : trimStr (comps.headD "") = "parammode"
  · rw [if_pos h12]; exact Or.inl ⟨rfl, rfl, rfl⟩
  rw [if_neg h12]
  by_cases h13 : trimStr (comps.headD "") = "param"
  case neg => rw [if_neg h13]; exact Or.inl ⟨rfl, rfl, rfl⟩
  rw [if_pos h13]
  by_cases hl3 : comps.length < 3
  · rw [if_pos hl3]; exact Or.inl ⟨rfl, rfl, rfl⟩
  rw [if_neg hl3]
  set c8 := comps ++ List.replicate (8 - comps.length) "" with hc8
  set ty := parseType (toLowerStr (c8.getD 1 "")) with hty0
  set nm := toLowerStr (c8.getD 2 "") with hnm
  by_cases hty : ty = PType.invalid
  · rw [if_pos hty]; exact Or.inl ⟨rfl, rfl, rfl⟩
  rw [if_neg hty]
  by_cases hhas : hasParamF st.info.params nm = true
  · rw [if_pos hhas]; exact Or.inl ⟨rfl, rfl, rfl⟩
  rw [if_neg hhas]
  by_cases htr : (nm = "trigger" ∨ nm = "kptrigger") ∧ ty ≠ PType.bool
  · rw [if_pos htr]; exact Or.inl ⟨rfl, rfl, rfl⟩
  rw [if_neg htr]
  by_cases hdur : nm = "duration"
  · rw [if_pos hdur]
    by_cases hrej : st.info.absoluteTime = true ∨ ty ≠ PType.double ∨
        (QV.str (urlParam (c8.getD 5 ""))).toDouble < 1/10 ∨
        86400 < (QV.str (urlParam (c8.getD 5 ""))).toDouble
    · rw [if_pos hrej]; exact Or.inl ⟨rfl, rfl, rfl⟩
    · rw [if_neg hrej]
      push_neg at hrej
      refine Or.inr (Or.inr (Or.inl ⟨by simpa using hrej.1, by simpa using hrej.1,
        lt_of_lt_of_le (by norm_num) hrej.2.2.1, ?_⟩))
      exact ⟨⟨ty, nm, urlParam (c8.getD 3 ""), urlParam (c8.getD 4 ""),
        QV.str (urlParam (c8.getD 5 "")), QV.dbl (1/10), QV.dbl 86400⟩, hdur, rfl⟩
  · rw [if_neg hdur]
    by_cases hres : nm = "delay" ∨ nm = "kpdelay" ∨ nm = "repeat" ∨
        nm = "kprepeat" ∨ nm = "stop" ∨ nm = "kpstop" ∨ nm = "kprelease"
    · rw [if_pos hres]; exact Or.inl ⟨rfl, rfl, rfl⟩
    · rw [if_neg hres]
      push_neg at hres
      have hlow : toLowerStr nm = nm := by rw [hnm]; exact toLowerStr_idem _
      refine Or.inr (Or.inr (Or.inr ⟨rfl, rfl,
        ⟨ty, nm, urlParam (c8.getD 3 ""), urlParam (c8.getD 4 ""),
          QV.str (urlParam (c8.getD 5 "")), QV.str (urlParam (c8.getD 6 "")),
          QV.str (urlParam (c8.getD 7 ""))⟩, rfl, ?_, ?_, ?_, ?_, ?_⟩))
      · show toLowerStr nm ≠ "duration"
        rw [hlow]; exact hdur
      · show toLowerStr nm ≠ "repeat"
        rw [hlow]; exact hres.2.2.1
      · show toLowerStr nm ≠ "kprepeat"
        rw [hlow]; exact hres.2.2.2.1
      · show toLowerStr nm ≠ "stop"
        rw [hlow]; exact hres.2.2.2.2.1
      · show toLowerStr nm ≠ "kpstop"
        rw [hlow]; exact hres.2.2.2.2.2.1

/-! ### C7: reserved timing parameters -/

/-- The info-line parser never produces a parameter carrying one of the
timing names synthesized by `finalize`. -/
def noReserved (params : List Param) : Prop :=
  ∀ p ∈ params, p.name ≠ "repeat" ∧ p.name ≠ "kprepeat" ∧
    p.name ≠ "stop" ∧ p.name ≠ "kpstop"

instance decNoReserved (params : List Param) : Decidable (noReserved params) :=
  inferInstanceAs (Decidable (∀ p ∈ params, p.name ≠ "repeat" ∧
    p.name ≠ "kprepeat" ∧ p.name ≠ "stop" ∧ p.name ≠ "kpstop"))

theorem processComponents_noReserved (st : ParseState) (comps : List String)
    (h : noReserved st.info.params) :
    noReserved (processComponents st comps).info.params := by
  rcases processComponents_shape st comps with
    ⟨_, _, hp⟩ | ⟨_, _, hp⟩ | ⟨_, _, _, p, hpn, hp⟩ | ⟨_, _, p, hp, _, hr, hkr, hs, hks⟩
  · rw [hp]; exact h
  · rw [hp]; exact h
  · rw [hp]
    intro q hq
    rcases List.mem_append.mp hq with hq | hq
    · exact h q hq
    · have hqp : q = p := by simpa using hq
      subst hqp
      rw [hpn]
      exact ⟨by decide, by decide, by decide, by decide⟩
  · rw [hp]
    intro q hq
    rcases List.mem_append.mp hq with hq | hq
    · exact h q hq
    · have hqp : q = p := by simpa using hq
      subst hqp
      exact ⟨fun he => hr (by rw [he]; decide),
        fun he => hkr (by rw [he]; decide),
        fun he => hs (by rw [he]; decide),
        fun he => hks (by rw [he]; decide)⟩

theorem parseLines_noReserved (lines : List String) :
    noReserved (parseLines lines).info.params := by
  rw [parseLines]
  have hgen : ∀ (ls : List String) (st : ParseState),
      noReserved st.info.params →
      noReserved (ls.foldl processLine st).info.params := by
    intro ls
    induction ls with
    | nil => exact fun st h => h
    | cons l rest ih =>
      intro st h
      exact ih _ (processComponents_noReserved st _ h)
  exact hgen lines {} (fun p hp => absurd hp (List.not_mem_nil p))

theorem hasParamF_append (l m : List Param) (n : String) :
    hasParamF (l ++ m) n = (hasParamF l n || hasParamF m n) := by
  simp [hasParamF, List.any_append]

theorem hasParamF_cons (p : Param) (l : List Param) (n : String) :
    hasParamF (p :: l) n =
      (decide (toLowerStr p.name = toLowerStr n) || hasParamF l n) := by
  simp [hasParamF]

theorem hasParamF_nil (n : String) : hasParamF [] n = false := by
  simp [hasParamF]

set_option maxHeartbeats 1600000 in
/-- C7. For every descriptor produced by the parse-and-finalize pipeline:
(i) the parse phase never registers a parameter named `repeat`, `kprepeat`,
`stop` or `kpstop`; (ii) every finalized descriptor contains the reserved
parameters `trigger`, `kptrigger`, `delay`, `kpdelay`, `kprelease`, `stop`
and `kpstop`; (iii) under the repeat flag, `stop`/`kpstop` are the injected
Long parameters with defaults `-1`/`0` and range `[0, 1000]`, and the Double
`repeat`/`kprepeat` parameters with range `[0.1, 86400]` and default equal
to the default duration are present; with the flag off, `stop`/`kpstop` are
the injected Double parameters with range `[0.1, 86400]` and default `-1`. -/
theorem reserved_params_c7 :
    (∀ lines, noReserved (parseLines lines).info.params)
    ∧ (∀ (st : ParseState) (info : AnimInfo), finalize st = some info →
        hasParamF info.params "trigger" = true
        ∧ hasParamF info.params "kptrigger" = true
        ∧ hasParamF info.params "delay" = true
        ∧ hasParamF info.params "kpdelay" = true
        ∧ hasParamF info.params "kprelease" = true
        ∧ hasParamF info.params "stop" = true
        ∧ hasParamF info.params "kpstop" = true)
    ∧ (∀ (st : ParseState) (info : AnimInfo), finalize st = some info →
        noReserved st.info.params →
        (st.info.repeatFlag = true →
          info.params.filter (fun p => p.name = "stop") = [stopLongParam]
          ∧ info.params.filter (fun p => p.name = "kpstop") = [kpstopLongParam]
          ∧ info.params.filter (fun p => p.name = "repeat") =
              [repeatParam (if st.defaultDuration < 0 then 1 else
                st.defaultDuration)]
          ∧ info.params.filter (fun p => p.name = "kprepeat") =
              [kprepeatParam (if st.defaultDuration < 0 then 1 else
                st.defaultDuration)])
        ∧ (st.info.repeatFlag = false →
          info.params.filter (fun p => p.name = "stop") = [stopDblParam]
          ∧ info.params.filter (fun p => p.name = "kpstop") =
              [kpstopDblParam])) := by
  refine ⟨parseLines_noReserved, fun st info heq => ?_, fun st info heq hnr => ?_⟩
  · by_cases hreq : st.info.guid = 0 ∨ st.info.name = "" ∨
        st.info.version = "" ∨ st.info.year = "" ∨ st.info.author = "" ∨
        st.info.license = ""
    · rw [finalize, if_pos hreq] at heq
      cases heq
    · rw [finalize, if_neg hreq] at heq
      injection heq with heq
      subst heq
      simp only [apply_ite AnimInfo.params, apply_ite AnimInfo.repeatFlag]
      split <;> split <;> split <;> split <;> split <;>
        simp_all +decide [hasParamF_append, hasParamF_cons, hasParamF_nil,
          triggerParam, kptriggerParam, delayParam, kpdelayParam,
          kpreleaseParam, durationParam, repeatParam, kprepeatParam,
          stopLongParam, kpstopLongParam, stopDblParam, kpstopDblParam]
  · by_cases hreq : st.info.guid = 0 ∨ st.info.name = "" ∨
        st.info.version = "" ∨ st.info.year = "" ∨ st.info.author = "" ∨
        st.info.license = ""
    · rw [finalize, if_pos hreq] at heq
      cases heq
    · rw [finalize, if_neg hreq] at heq
      injection heq with heq
      subst heq
      have hbase : ∀ n : String, n = "repeat" ∨ n = "kprepeat" ∨ n = "stop" ∨
          n = "kpstop" →
          st.info.params.filter (fun p => p.name = n) = [] := by
        intro n hn
        rw [List.filter_eq_nil_iff]
        intro p hp
        obtain ⟨h1, h2, h3, h4⟩ := hnr p hp
        rcases hn with hn | hn | hn | hn <;> subst hn <;> simpa
      have hb1 := hbase "repeat" (Or.inl rfl)
      have hb2 := hbase "kprepeat" (Or.inr (Or.inl rfl))
      have hb3 := hbase "stop" (Or.inr (Or.inr (Or.inl rfl)))
      have hb4 := hbase "kpstop" (Or.inr (Or.inr (Or.inr rfl)))
      simp only [apply_ite AnimInfo.params, apply_ite AnimInfo.repeatFlag]
      constructor
      · intro hrf
        split <;> split <;> split <;> split <;> split <;>
          simp_all +decide [List.filter_append, triggerParam, kptriggerParam,
            delayParam, kpdelayParam, kpreleaseParam, durationParam,
            repeatParam, kprepeatParam, stopLongParam, kpstopLongParam,
            stopDblParam, kpstopDblParam]
      · intro hrf
        split <;> split <;> split <;> split <;> split <;>
          simp_all +decide [List.filter_append, triggerParam, kptriggerParam,
            delayParam, kpdelayParam, kpreleaseParam, durationParam,
            repeatParam, kprepeatParam, stopLongParam, kpstopLongParam,
            stopDblParam, kpstopDblParam]

set_option maxRecDepth 4000 in
/-- Concrete instantiation of `reserved_params_c7` on the descriptor loaded
from `c4a`'s info lines. -/
theorem reserved_params_c7_witness :
    ∃ info, finalize (parseLines c4a.lines) = some info ∧
      hasParamF info.params "stop" = true ∧
      info.params.filter (fun p => p.name = "stop") = [stopLongParam] ∧
      info.params.filter (fun p => p.name = "repeat") =
        [repeatParam (if (parseLines c4a.lines).defaultDuration < 0 then 1
          else (parseLines c4a.lines).defaultDuration)] := by
  cases h : finalize (parseLines c4a.lines) with
  | none => exact absurd h (by decide)
  | some info =>
    exact ⟨info, rfl,
      (reserved_params_c7.2.1 _ info h).2.2.2.2.2.1,
      ((reserved_params_c7.2.2 _ info h (by decide)).1 (by decide)).1,
      ((reserved_params_c7.2.2 _ info h (by decide)).1 (by decide)).2.2.1⟩

/-! ### C10: absolute time and `duration` are mutually exclusive -/

theorem processComponents_timeInv (st : ParseState) (comps : List String)
    (h1 : 0 < st.defaultDuration → st.info.absoluteTime = false)
    (h2 : hasParamF st.info.params "duration" = true →
      0 < st.defaultDuration) :
    (0 < (processComponents st comps).defaultDuration →
      (processComponents st comps).info.absoluteTime = false)
    ∧ (hasParamF (processComponents st comps).info.params "duration" = true →
      0 < (processComponents st comps).defaultDuration) := by
  rcases processComponents_shape st comps with
    ⟨ha, hd, hp⟩ | ⟨hnd, hd, hp⟩ | ⟨ha0, ha1, hdpos, p, hpn, hp⟩ |
    ⟨ha, hd, p, hp, hnd2, _, _, _, _⟩
  · rw [ha, hd, hp]
    exact ⟨h1, h2⟩
  · rw [hd, hp]
    exact ⟨fun h0 => absurd h0 hnd, fun hp2 => h2 hp2⟩
  · exact ⟨fun _ => ha1, fun _ => hdpos⟩
  · rw [ha, hd, hp]
    refine ⟨h1, fun hdur => ?_⟩
    rw [hasParamF_append] at hdur
    have hdur2 : hasParamF st.info.params "duration" = true ∨
        hasParamF [p] "duration" = true := by simpa using hdur
    rcases hdur2 with h | h
    · exact h2 h
    · exfalso
      rw [hasParamF_cons, hasParamF_nil] at h
      simp at h
      have hld : toLowerStr "duration" = "duration" := by decide
      rw [hld] at h
      exact hnd2 h

theorem parseLines_timeInv (lines : List String) :
    (0 < (parseLines lines).defaultDuration →
      (parseLines lines).info.absoluteTime = false)
    ∧ (hasParamF (parseLines lines).info.params "duration" = true →
      0 < (parseLines lines).defaultDuration) := by
  rw [parseLines]
  have hgen : ∀ (ls : List String) (st : ParseState),
      (0 < st.defaultDuration → st.info.absoluteTime = false) →
      (hasParamF st.info.params "duration" = true → 0 < st.defaultDuration) →
      (0 < (ls.foldl processLine st).defaultDuration →
        (ls.foldl processLine st).info.absoluteTime = false)
      ∧ (hasParamF (ls.foldl processLine st).info.params "duration" = true →
        0 < (ls.foldl processLine st).defaultDuration) := by
    intro ls
    induction ls with
    | nil => exact fun st h1 h2 => ⟨h1, h2⟩
    | cons l rest ih =>
      intro st h1 h2
      obtain ⟨g1, g2⟩ := processComponents_timeInv st (splitSpace (trimStr l))
        h1 h2
      exact ih _ g1 g2
  refine hgen lines {} (fun h0 => rfl) (fun hd => ?_)
  rw [show hasParamF ({} : ParseState).info.params "duration" = false from rfl]
    at hd
  cases hd

/-- `finalize` never changes the absolute-time flag. -/
theorem finalize_absoluteTime (st : ParseState) (info : AnimInfo)
    (heq : finalize st = some info) :
    info.absoluteTime = st.info.absoluteTime := by
  by_cases hreq : st.info.guid = 0 ∨ st.info.name = "" ∨
      st.info.version = "" ∨ st.info.year = "" ∨ st.info.author = "" ∨
      st.info.license = ""
  · rw [finalize, if_pos hreq] at heq
    cases heq
  · rw [finalize, if_neg hreq] at heq
    injection heq with heq
    subst heq
    simp [apply_ite AnimInfo.absoluteTime]

/-- C10. (i) A `time` line arriving after a valid `duration` declaration
(positive recorded default duration) is ignored; (ii) a `duration`
declaration under absolute-time mode is rejected (state unchanged); (iii)
`finalize` adds a `duration` parameter only in relative mode: under absolute
time a descriptor without a parsed `duration` still has none afterwards;
(iv) hence no loaded descriptor has both the absolute-time flag and a
`duration` parameter. -/
theorem absolute_duration_c10 :
    (∀ (st : ParseState) (c : String), 0 < st.defaultDuration →
      processComponents st ["time", c] = st)
    ∧ (∀ (st : ParseState) (t c3 c4 c5 c6 c7 : String),
      st.info.absoluteTime = true →
      processComponents st ["param", t, "duration", c3, c4, c5, c6, c7] = st)
    ∧ (∀ (st : ParseState) (info : AnimInfo), finalize st = some info →
      hasParamF st.info.params "duration" = false →
      st.info.absoluteTime = true →
      hasParamF info.params "duration" = false)
    ∧ (∀ (lines : List String) (info : AnimInfo), loadLines lines = some info →
      ¬ (info.absoluteTime = true ∧ hasParamF info.params "duration" = true)) := by
  have hc : ∀ (st : ParseState) (info : AnimInfo), finalize st = some info →
      hasParamF st.info.params "duration" = false →
      st.info.absoluteTime = true →
      hasParamF info.params "duration" = false := by
    intro st info heq hnd habs
    by_cases hreq : st.info.guid = 0 ∨ st.info.name = "" ∨
        st.info.version = "" ∨ st.info.year = "" ∨ st.info.author = "" ∨
        st.info.license = ""
    · rw [finalize, if_pos hreq] at heq
      cases heq
    · rw [finalize, if_neg hreq] at heq
      injection heq with heq
      subst heq
      simp only [apply_ite AnimInfo.params, apply_ite AnimInfo.absoluteTime,
        apply_ite AnimInfo.repeatFlag]
      split <;> split <;> split <;> split <;> split <;>
        simp_all +decide [hasParamF_append, hasParamF_cons, hasParamF_nil,
          triggerParam, kptriggerParam, delayParam, kpdelayParam,
          kpreleaseParam, durationParam, repeatParam, kprepeatParam,
          stopLongParam, kpstopLongParam, stopDblParam, kpstopDblParam]
  refine ⟨fun st c hdd => ?_, fun st t c3 c4 c5 c6 c7 habs => ?_, hc,
    fun lines info heq => ?_⟩
  · rw [processComponents, if_neg (by simp)]
    simp only [List.headD_cons, List.getD_cons_zero, List.getD_cons_succ]
    rw [if_neg (by decide), if_neg (by decide), if_neg (by decide),
      if_neg (by decide), if_neg (by decide), if_neg (by decide),
      if_neg (by decide), if_neg (by decide), if_pos (by decide),
      if_pos hdd]
  · exact processComponents_duration_reject st t c3 c4 c5 c6 c7 (Or.inl habs)
  · rintro ⟨habs, hdur⟩
    rw [loadLines] at heq
    have habs0 : (parseLines lines).info.absoluteTime = true := by
      rw [← finalize_absoluteTime _ _ heq]
      exact habs
    have hinv := parseLines_timeInv lines
    have hnd : hasParamF (parseLines lines).info.params "duration" = false := by
      by_cases h : hasParamF (parseLines lines).info.params "duration" = true
      · have h0 := hinv.1 (hinv.2 h)
        rw [h0] at habs0
        cases habs0
      · simpa using h
    rw [hc (parseLines lines) info heq hnd habs0] at hdur
    cases hdur

set_option maxRecDepth 4000 in
/-- Concrete instantiation of `absolute_duration_c10`: after a valid
`duration 5` declaration a later `time absolute` line is ignored; a
`duration` line under absolute time is rejected; the loaded `c4a` descriptor
does not combine absolute time with a `duration` parameter. -/
theorem absolute_duration_c10_witness :
    processComponents
        (processComponents {}
          ["param", "double", "duration", "", "", "5", "", ""])
        ["time", "absolute"] =
      processComponents {} ["param", "double", "duration", "", "", "5", "", ""]
    ∧ processComponents { info := { absoluteTime := true } }
        ["param", "double", "duration", "", "", "5", "", ""] =
      { info := { absoluteTime := true } }
    ∧ (∃ info, loadLines c4a.lines = some info ∧
        ¬ (info.absoluteTime = true ∧
          hasParamF info.params "duration" = true)) := by
  refine ⟨absolute_duration_c10.1
      (processComponents {} ["param", "double", "duration", "", "", "5", "", ""])
      "absolute" (by with_unfolding_all decide),
    absolute_duration_c10.2.1 { info := { absoluteTime := true } }
      "double" "" "" "5" "" "" rfl, ?_⟩
  cases h : loadLines c4a.lines with
  | none => exact absurd h (by decide)
  | some info =>
    exact ⟨info, rfl, absolute_duration_c10.2.2.2 c4a.lines info h⟩
/-! ### C5: duplicate-name disambiguation in `list()` -/

theorem ltChars_cons (x y : Char) (xs ys : List Char) :
    ltChars (x :: xs) (y :: ys) = true ↔
      (x.toNat < y.toNat ∨ (x.toNat = y.toNat ∧ ltChars xs ys = true)) := by
  simp only [ltChars]
  by_cases h1 : x.toNat < y.toNat
  · simp [h1]
  · by_cases h2 : y.toNat < x.toNat
    · simp [h1, h2]
      omega
    · have h3 : x.toNat = y.toNat := by omega
      simp [h1, h2, h3]

theorem ltChars_trans (a : List Char) : ∀ (b c : List Char),
    ltChars a b = true → ltChars b c = true → ltChars a c = true := by
  induction a with
  | nil =>
    intro b c h1 h2
    cases b with
    | nil => simp [ltChars] at h1
    | cons y ys =>
      cases c with
      | nil => simp [ltChars] at h2
      | cons z zs => simp [ltChars]
  | cons x xs ih =>
    intro b c h1 h2
    cases b with
    | nil => simp [ltChars] at h1
    | cons y ys =>
      cases c with
      | nil => simp [ltChars] at h2
      | cons z zs =>
        rw [ltChars_cons] at h1 h2 ⊢
        rcases h1 with h1 | ⟨h1e, h1r⟩
        · rcases h2 with h2 | ⟨h2e, h2r⟩
          · exact Or.inl (by omega)
          · exact Or.inl (by omega)
        · rcases h2 with h2 | ⟨h2e, h2r⟩
          · exact Or.inl (by omega)
          · exact Or.inr ⟨by omega, ih ys zs h1r h2r⟩

theorem ltChars_total (a : List Char) : ∀ (b : List Char),
    ltChars a b = false → ltChars b a = false → a = b := by
  induction a with
  | nil =>
    intro b h1 _
    cases b with
    | nil => rfl
    | cons y ys => simp [ltChars] at h1
  | cons x xs ih =>
    intro b h1 h2
    cases b with
    | nil => simp [ltChars] at h2
    | cons y ys =>
      have hx : ¬ x.toNat < y.toNat := by
        intro h
        rw [show ltChars (x :: xs) (y :: ys) = true from
          (ltChars_cons x y xs ys).mpr (Or.inl h)] at h1
        cases h1
      have hy : ¬ y.toNat < x.toNat := by
        intro h
        rw [show ltChars (y :: ys) (x :: xs) = true from
          (ltChars_cons y x ys xs).mpr (Or.inl h)] at h2
        cases h2
      have hxy : x = y := Char.eq_of_val_eq (by
        have : x.toNat = y.toNat := by omega
        exact UInt32.toNat.inj this)
      have hrest : xs = ys := by
        apply ih ys
        · by_contra hc
          have hc' : ltChars xs ys = true := by
            cases hr : ltChars xs ys
            · exact absurd hr hc
            · rfl
          rw [show ltChars (x :: xs) (y :: ys) = true from
            (ltChars_cons x y xs ys).mpr (Or.inr ⟨by omega, hc'⟩)] at h1
          cases h1
        · by_contra hc
          have hc' : ltChars ys xs = true := by
            cases hr : ltChars ys xs
            · exact absurd hr hc
            · rfl
          rw [show ltChars (y :: ys) (x :: xs) = true from
            (ltChars_cons y x ys xs).mpr (Or.inr ⟨by omega, hc'⟩)] at h2
          cases h2
      rw [hxy, hrest]

theorem ltStr_trans (a b c : String) (h1 : ltStr a b = true)
    (h2 : ltStr b c = true) : ltStr a c = true :=
  ltChars_trans a.data b.data c.data h1 h2

theorem ltStr_total (a b : String) (h1 : ltStr a b = false)
    (h2 : ltStr b a = false) : a = b := by
  have h := ltChars_total a.data b.data h1 h2
  cases a
  cases b
  exact congrArg String.mk h

theorem ltChars_append (l m : List Char) : ltChars (l ++ m) l = false := by
  induction l with
  | nil =>
    cases m with
    | nil => rfl
    | cons c cs => rfl
  | cons x xs ih =>
    show ltChars (x :: (xs ++ m)) (x :: xs) = false
    cases hr : ltChars (x :: (xs ++ m)) (x :: xs)
    · rfl
    · rw [ltChars_cons] at hr
      rcases hr with hr | ⟨_, hr⟩
      · omega
      · rw [ih] at hr
        cases hr

theorem ltStr_append (a x : String) : ltStr (a ++ x) a = false := by
  show ltChars (a ++ x).data a.data = false
  rw [String.data_append]
  exact ltChars_append a.data x.data


theorem string_append_ne (a x : String) (hx : x.data ≠ []) : a ++ x ≠ a := by
  intro h
  have hd : (a ++ x).data = a.data := congrArg String.data h
  rw [String.data_append] at hd
  have hlen : a.data.length + x.data.length = a.data.length := by
    simpa [List.length_append] using congrArg List.length hd
  have hx0 : x.data.length = 0 := by omega
  exact hx (List.length_eq_zero.mp hx0)

theorem mapLookup_insert (m : List (String × AnimInfo)) (k k' : String)
    (v : AnimInfo) :
    mapLookup (mapInsert m k v) k' =
      if k' = k then some v else mapLookup m k' := by
  induction m with
  | nil => simp [mapInsert, mapLookup]
  | cons e rest ih =>
    obtain ⟨k0, v0⟩ := e
    rw [mapInsert]
    by_cases h1 : ltStr k k0 = true
    · rw [if_pos h1]
      by_cases h2 : k' = k
      · simp [mapLookup, h2]
      · simp [mapLookup, h2]
    · rw [if_neg h1]
      by_cases h2 : k = k0
      · subst h2
        rw [if_pos rfl]
        by_cases h3 : k' = k
        · simp [mapLookup, h3]
        · simp [mapLookup, h3]
      · rw [if_neg h2]
        by_cases h3 : k' = k0
        · have h4 : k' ≠ k := fun hh => h2 (hh.symm.trans h3)
          have h5 : k0 ≠ k := fun hh => h2 hh.symm
          simp [mapLookup, h3, h4, h5]
        · simp [mapLookup, h3, ih]

theorem mapInsert_values_perm (m : List (String × AnimInfo)) (k : String)
    (v : AnimInfo) (h : mapLookup m k = none) :
    List.Perm ((mapInsert m k v).map (·.2)) (v :: m.map (·.2)) := by
  induction m with
  | nil => simp [mapInsert]
  | cons e rest ih =>
    obtain ⟨k0, v0⟩ := e
    rw [mapLookup] at h
    by_cases h2 : k = k0
    · rw [if_pos h2] at h
      cases h
    · rw [if_neg h2] at h
      rw [mapInsert]
      by_cases h1 : ltStr k k0 = true
      · rw [if_pos h1]
        simp only [List.map_cons]
        exact List.Perm.refl _
      · rw [if_neg h1, if_neg h2]
        simp only [List.map_cons]
        exact ((ih h).cons v0).trans (List.Perm.swap v v0 (rest.map (·.2)))

theorem mapInsert_mem (m : List (String × AnimInfo)) (k : String)
    (v : AnimInfo) : ∀ e ∈ mapInsert m k v, e = (k, v) ∨ e ∈ m := by
  induction m with
  | nil =>
    intro e he
    simp [mapInsert] at he
    exact Or.inl he
  | cons e0 rest ih =>
    obtain ⟨k0, v0⟩ := e0
    intro e he
    rw [mapInsert] at he
    by_cases h1 : ltStr k k0 = true
    · rw [if_pos h1] at he
      simp only [List.mem_cons] at he
      rcases he with he | he | he
      · exact Or.inl he
      · exact Or.inr (by simp [he])
      · exact Or.inr (by simp [he])
    · rw [if_neg h1] at he
      by_cases h2 : k = k0
      · rw [if_pos h2] at he
        simp only [List.mem_cons] at he
        rcases he with he | he
        · exact Or.inl he
        · exact Or.inr (by simp [he])
      · rw [if_neg h2] at he
        simp only [List.mem_cons] at he
        rcases he with he | he
        · exact Or.inr (by simp [he])
        · rcases ih e he with hh | hh
          · exact Or.inl hh
          · exact Or.inr (by simp [hh])

/-- Keys strictly ascending in `QString` order. -/
def keysSorted (m : List (String × AnimInfo)) : Prop :=
  (m.map (·.1)).Pairwise (fun a b => ltStr a b = true)

theorem mapInsert_sorted (m : List (String × AnimInfo)) (k : String)
    (v : AnimInfo) (h : keysSorted m) : keysSorted (mapInsert m k v) := by
  induction m with
  | nil =>
    simp [mapInsert, keysSorted]
  | cons e rest ih =>
    obtain ⟨k0, v0⟩ := e
    rw [keysSorted, List.map_cons, List.pairwise_cons] at h
    obtain ⟨h0, hrest⟩ := h
    rw [mapInsert]
    by_cases h1 : ltStr k k0 = true
    · rw [if_pos h1]
      rw [keysSorted]
      simp only [List.map_cons]
      rw [List.pairwise_cons]
      constructor
      · intro b hb
        simp only [List.mem_cons] at hb
        rcases hb with hb | hb
        · subst hb
          exact h1
        · exact ltStr_trans k k0 b h1 (h0 b hb)
      · rw [List.pairwise_cons]
        exact ⟨h0, hrest⟩
    · rw [if_neg h1]
      by_cases h2 : k = k0
      · subst h2
        rw [if_pos rfl]
        rw [keysSorted]
        simp only [List.map_cons]
        rw [List.pairwise_cons]
        exact ⟨h0, hrest⟩
      · rw [if_neg h2]
        have h3 : ltStr k0 k = true := by
          cases hr : ltStr k0 k
          · exact absurd (ltStr_total k k0 (by simpa using h1) hr) h2
          · rfl
        rw [keysSorted]
        simp only [List.map_cons]
        rw [List.pairwise_cons]
        constructor
        · intro b hb
          rw [List.mem_map] at hb
          obtain ⟨e, he, hb⟩ := hb
          subst hb
          rcases mapInsert_mem rest k v e he with hh | hh
          · rw [hh]
            exact h3
          · exact h0 e.1 (List.mem_map.mpr ⟨e, hh, rfl⟩)
        · exact ih hrest

theorem mapInsert_keyname (m : List (String × AnimInfo)) (k : String)
    (v : AnimInfo) (hm : ∀ e ∈ m, e.1 = e.2.name) (hkv : k = v.name) :
    ∀ e ∈ mapInsert m k v, e.1 = e.2.name := by
  intro e he
  rcases mapInsert_mem m k v e he with hh | hh
  · rw [hh]
    exact hkv
  · exact hm e hh

theorem listFold_distinct (scripts : List AnimInfo) :
    ∀ result : List (String × AnimInfo),
    (scripts.map (·.name)).Nodup →
    (∀ s ∈ scripts, mapLookup result s.name = none) →
    keysSorted result → (∀ e ∈ result, e.1 = e.2.name) →
    List.Perm ((listFold scripts result).map (·.2))
      (result.map (·.2) ++ scripts)
    ∧ keysSorted (listFold scripts result)
    ∧ (∀ e ∈ listFold scripts result, e.1 = e.2.name) := by
  induction scripts with
  | nil =>
    intro result _ _ hs hn
    refine ⟨?_, hs, hn⟩
    show List.Perm (result.map (·.2)) (result.map (·.2) ++ [])
    rw [List.append_nil]
  | cons s rest ih =>
    intro result hnd hlk hs hn
    rw [List.map_cons, List.nodup_cons] at hnd
    simp only [listFold, hlk s (List.mem_cons_self s rest)]
    have hlk2 : ∀ s2 ∈ rest, mapLookup (mapInsert result s.name s) s2.name = none := by
      intro s2 hs2
      rw [mapLookup_insert]
      rw [if_neg (fun hh => hnd.1 (List.mem_map.mpr ⟨s2, hs2, hh⟩))]
      exact hlk s2 (List.mem_cons_of_mem s hs2)
    obtain ⟨g1, g2, g3⟩ := ih (mapInsert result s.name s) hnd.2 hlk2
      (mapInsert_sorted result s.name s hs)
      (mapInsert_keyname result s.name s hn rfl)
    refine ⟨?_, g2, g3⟩
    exact g1.trans (((mapInsert_values_perm result s.name s
      (hlk s (List.mem_cons_self s rest))).append_right rest).trans
      List.perm_middle.symm)


theorem string_ext (a b : String) (h : a.data = b.data) : a = b := by
  cases a
  cases b
  exact congrArg String.mk h

theorem string_append_assoc (a b c : String) : (a ++ b) ++ c = a ++ (b ++ c) :=
  string_ext _ _ (by
    rw [String.data_append, String.data_append, String.data_append,
      String.data_append, List.append_assoc])

theorem listValues_distinct (scripts : List AnimInfo)
    (hnd : (scripts.map (·.name)).Nodup) :
    List.Perm (listValues scripts) scripts
    ∧ ((listValues scripts).map (·.name)).Pairwise
        (fun a b => ltStr a b = true) := by
  obtain ⟨g1, g2, g3⟩ := listFold_distinct scripts [] hnd (fun s _ => rfl)
    (by simp [keysSorted]) (by simp)
  constructor
  · simpa [listValues] using g1
  · have hmap : (listValues scripts).map (·.name) =
        (listFold scripts []).map (·.1) := by
      rw [listValues, List.map_map]
      exact List.map_congr_left (fun e he => (g3 e he).symm)
    rw [hmap]
    exact g2

theorem listValues_pair (s1 s2 : AnimInfo) (hname : s1.name = s2.name) :
    listValues [s1, s2] = [renameDup s1, renameDup s2] := by
  have hl2 : mapLookup [(s1.name, s1)] s2.name = some s1 := by
    rw [mapLookup, if_pos hname.symm]
  have e1 : listFold [s1, s2] [] = listFold [s2] [(s1.name, s1)] := rfl
  have e2 : listFold [s2] [(s1.name, s1)] =
      mapInsert (mapAdjust [(s1.name, s1)] s2.name renameDup)
        (renameDup s2).name (renameDup s2) := by
    simp only [listFold, hl2]
  have hadj : mapAdjust [(s1.name, s1)] s2.name renameDup =
      [(s1.name, renameDup s1)] := by
    simp [mapAdjust, hname]
  have hlt : ltStr (renameDup s2).name s1.name = false := by
    show ltStr (s2.name ++ " " ++ uuidUpper s2.guid) s1.name = false
    rw [hname, string_append_assoc]
    exact ltStr_append _ _
  have hne2 : ¬ (renameDup s2).name = s1.name := by
    show ¬ s2.name ++ " " ++ uuidUpper s2.guid = s1.name
    rw [hname, string_append_assoc]
    apply string_append_ne
    rw [String.data_append]
    simp
  have e3 : mapInsert [(s1.name, renameDup s1)] (renameDup s2).name
      (renameDup s2) =
      [(s1.name, renameDup s1), ((renameDup s2).name, renameDup s2)] := by
    rw [mapInsert, if_neg (by simp [hlt]), if_neg hne2]
    rfl
  rw [listValues, e1, e2, hadj, e3]
  rfl

/-- C5 (amended). (i) When all display names in the catalog are distinct,
`list()` leaves every descriptor unchanged (the output is a permutation of
the catalog) and returns the descriptors in strictly ascending `QString`
order of their display names; (ii) when the catalog is exactly a pair
sharing one display name, both members are renamed to the original name
followed by a space and the upper-cased guid text, and they are returned in
processing order - the first member stays keyed under its pre-rewrite name,
so the output is ordered by the insertion keys, not necessarily by the
final display names. -/
theorem list_names_c5 :
    (∀ scripts : List AnimInfo, (scripts.map (·.name)).Nodup →
      List.Perm (listValues scripts) scripts
      ∧ ((listValues scripts).map (·.name)).Pairwise
          (fun a b => ltStr a b = true))
    ∧ (∀ s1 s2 : AnimInfo, s1.name = s2.name →
      listValues [s1, s2] = [renameDup s1, renameDup s2]) :=
  ⟨listValues_distinct, listValues_pair⟩

/-- Demo descriptor whose guid text sorts high. -/
def c5a : AnimInfo :=
  { name := "a", guid := parseUuid "ffffffff-ffff-ffff-ffff-ffffffffffff" }

/-- Demo descriptor with the same display name and a guid text that sorts
low. -/
def c5b : AnimInfo :=
  { name := "a", guid := parseUuid "aaaaaaaa-aaaa-aaaa-aaaa-aaaaaaaaaaaa" }

/-- Demo descriptor with a unique display name. -/
def c5c : AnimInfo := { name := "zz", guid := 3 }

/-- Counterexample to C5 as stated: both members of the duplicate-name pair
are renamed, but the returned list is **not** alphabetically ordered by the
(rewritten) display names - the first member stays keyed in the map under
its old name `"a"`, so it precedes the second even though its new display
name sorts after the second's. -/
theorem list_names_c5_counter :
    (listValues [c5a, c5b]).map (·.name) =
      [(renameDup c5a).name, (renameDup c5b).name]
    ∧ ltStr (renameDup c5b).name (renameDup c5a).name = true
    ∧ chainLe ((listValues [c5a, c5b]).map (·.name)) = false := by
  refine ⟨?_, ?_, ?_⟩ <;> decide

/-- Concrete instantiation of `list_names_c5`: distinct names are returned
unchanged, and a duplicate pair is renamed with the guid suffix. -/
theorem list_names_c5_witness :
    (([c5c, c5a] : List AnimInfo).map (·.name)).Nodup
    ∧ List.Perm (listValues [c5c, c5a]) [c5c, c5a]
    ∧ listValues [c5a, c5b] = [renameDup c5a, renameDup c5b] :=
  ⟨by decide, (list_names_c5.1 [c5c, c5a] (by decide)).1,
   list_names_c5.2 c5a c5b rfl⟩

end Ckb
